import Mathlib

/-!
Shallow embedding of the ingestion pipeline of the Automated-Pipeline-Deployment
repository (files `app/main.py` and `app/webhook_server.py`), together with
theorems settling the frozen claims about it.

Conventions of the embedding:
* Python/JSON values are modelled by `PyVal` (with `PyList`/`PyDict` for the
  two container forms); Python dicts are association lists with unique keys
  (Python dicts cannot hold duplicate keys, and every lookup in the source is
  by a literal string key).
* Machine floats of Python are modelled by exact rationals `ℚ`; `round(x, 2)`
  is modelled by ties-to-even rounding at two decimal places.
* Code that can raise is modelled in `Except Unit`; the external persistence
  collaborator (the Supabase client) is an explicit `Persist` record of
  state-passing functions, so that both its documented behaviour and injected
  faults can be expressed.
-/

set_option maxHeartbeats 1000000

namespace Pipeline

mutual

/-- Python/JSON values as they occur in webhook payloads and decoded CSV rows. -/
inductive PyVal where
  | none : PyVal
  | bool : Bool → PyVal
  | int : Int → PyVal
  | str : String → PyVal
  | list : PyList → PyVal
  | dict : PyDict → PyVal

/-- A Python list of `PyVal`s. -/
inductive PyList where
  | nil : PyList
  | cons : PyVal → PyList → PyList

/-- A Python dict with string keys. -/
inductive PyDict where
  | nil : PyDict
  | cons : String → PyVal → PyDict → PyDict

end

deriving instance DecidableEq for PyVal
deriving instance DecidableEq for PyList
deriving instance DecidableEq for PyDict

deriving instance DecidableEq for Except

/-- A Python dict with string keys, as an association list (first match wins;
Python dicts hold each key at most once). -/
abbrev Record := List (String × PyVal)

/-- Embed a Lean list of values as a `PyList`. -/
def PyList.ofList : List PyVal → PyList
  | [] => .nil
  | v :: l => .cons v (PyList.ofList l)

/-- The Lean list underlying a `PyList`. -/
def PyList.toList : PyList → List PyVal
  | .nil => []
  | .cons v l => v :: PyList.toList l

/-- Python list concatenation. -/
def PyList.append : PyList → PyList → PyList
  | .nil, l => l
  | .cons v l, l' => .cons v (PyList.append l l')

def PyList.isNil : PyList → Bool
  | .nil => true
  | .cons _ _ => false

/-- Embed an association list as a `PyDict`. -/
def PyDict.ofRecord : Record → PyDict
  | [] => .nil
  | (k, v) :: r => .cons k v (PyDict.ofRecord r)

/-- The association list underlying a `PyDict`. -/
def PyDict.toRecord : PyDict → Record
  | .nil => []
  | .cons k v d => (k, v) :: PyDict.toRecord d

def PyDict.isNil : PyDict → Bool
  | .nil => true
  | .cons _ _ _ => false

/-- Is this value a Python `str`? (`json.loads` accepts only strings here.) -/
def PyVal.isStr : PyVal → Bool
  | .str _ => true
  | _ => false

/-- Python truthiness, as used by `if x:` and `x or y`. -/
def truthy : PyVal → Bool
  | .none => false
  | .bool b => b
  | .int n => n != 0
  | .str s => s != ""
  | .list l => !l.isNil
  | .dict d => !d.isNil

/-- Python `a or b`: `a` if truthy, else `b`. -/
def pyOr (a b : PyVal) : PyVal := if truthy a then a else b

/-- Python `d.get(k)` (default `None`). -/
def dget : Record → String → PyVal
  | [], _ => .none
  | p :: r, k => if p.1 = k then p.2 else dget r k

/-- Python `d.get(k, default)`. -/
def dgetD : Record → String → PyVal → PyVal
  | [], _, d => d
  | p :: r, k, d => if p.1 = k then p.2 else dgetD r k d

/-- Python `k in d` for a dict `d`: key membership. -/
def containsKey (r : Record) (k : String) : Bool := r.any (fun p => p.1 == k)

/-- Split a character list on a separator; the result always has one more
part than there are separators (so a trailing separator yields a final empty
part), matching both `str.split(sep)` and `String.splitOn`. -/
def splitOnChar (sep : Char) : List Char → List (List Char)
  | [] => [[]]
  | c :: cs =>
    let r := splitOnChar sep cs
    if c = sep then [] :: r
    else
      match r with
      | [] => [[c]]
      | h :: t => (c :: h) :: t

/-- Python `str.strip()`: drop whitespace from both ends. -/
def trimChars (l : List Char) : List Char :=
  ((l.dropWhile Char.isWhitespace).reverse.dropWhile Char.isWhitespace).reverse

/-- Python `str.strip()` on strings. -/
def pyStrip (s : String) : String := String.mk (trimChars s.toList)

/-- Value of a digit string, most significant first. -/
def digitsToNat (l : List Char) : Nat := l.foldl (fun a c => a * 10 + (c.toNat - 48)) 0

/-- Python `int(s)` on a string: surrounding whitespace stripped, optional
sign, then decimal digits; anything else raises `ValueError` (`none` here).
(ASCII-digit model; digit-group underscores are not modelled, no input in this
development uses them.) -/
def strToInt? (s : String) : Option Int :=
  match trimChars s.toList with
  | '+' :: r => if !r.isEmpty && r.all Char.isDigit then some (digitsToNat r) else Option.none
  | '-' :: r => if !r.isEmpty && r.all Char.isDigit then some (-(digitsToNat r : Int)) else Option.none
  | r => if !r.isEmpty && r.all Char.isDigit then some (digitsToNat r) else Option.none

/-- Python `int(x)` on a pipeline value: ints unchanged, bools as 0/1, strings
parsed (raising on non-numeric text), everything else raises `TypeError`. -/
def pyToInt : PyVal → Except Unit Int
  | .int n => .ok n
  | .bool b => .ok (if b then 1 else 0)
  | .str s =>
    match strToInt? s with
    | some n => .ok n
    | Option.none => .error ()
  | _ => .error ()

/-- Numeric view of a value, as Python arithmetic sees it (bools count as
0/1). -/
def pyNum? : PyVal → Option Int
  | .int n => some n
  | .bool b => some (if b then 1 else 0)
  | _ => Option.none

/-- Python `a + b` restricted to the value forms that can appear here:
numbers add, strings and lists concatenate, every other combination raises
`TypeError`. -/
def pyAdd (a b : PyVal) : Except Unit PyVal :=
  match pyNum? a, pyNum? b with
  | some x, some y => .ok (.int (x + y))
  | _, _ =>
    match a, b with
    | .str x, .str y => .ok (.str (x ++ y))
    | .list x, .list y => .ok (.list (x.append y))
    | _, _ => .error ()

/-- Python true division `a / b` on numbers, raising `ZeroDivisionError` on a
zero divisor and `TypeError` on non-numbers; the float result is modelled
exactly in `ℚ`. (Core `Rat` operations are used throughout so that concrete
runs reduce inside the kernel.) -/
def pyDivQ (a b : PyVal) : Except Unit ℚ :=
  match pyNum? a, pyNum? b with
  | some x, some y => if y = 0 then .error () else .ok (Rat.divInt x y)
  | _, _ => .error ()

/-- Floor of a rational (its denominator is positive, so Euclidean division
of numerator by denominator is exactly the floor). -/
def qfloor (q : ℚ) : ℤ := q.num.ediv q.den

/-- Subtraction on `ℚ` through `Rat.divInt`, which reduces in the kernel. -/
def qsub (a b : ℚ) : ℚ := Rat.divInt (a.num * b.den - b.num * a.den) (a.den * b.den)

/-- Multiplication on `ℚ` through `Rat.divInt`, which reduces in the kernel. -/
def qmul (a b : ℚ) : ℚ := Rat.divInt (a.num * b.num) (a.den * b.den)

/-- Round to the nearest integer, ties to even (Python `round`). -/
def roundHalfEven (q : ℚ) : ℤ :=
  let f := qfloor q
  let frac := qsub q (Rat.divInt f 1)
  if frac = Rat.divInt 1 2 then (if f % 2 = 0 then f else f + 1)
  else if Rat.blt frac (Rat.divInt 1 2) then f else f + 1

/-- Python `round(x, 2)` on the exact-rational model of floats. -/
def round2 (q : ℚ) : ℚ := Rat.divInt (roundHalfEven (qmul q (Rat.divInt 100 1))) 100

/-- `calculate_engagement_rate` from `app/main.py` (lines 51–55):
`impressions = post.get('impressions', 1) or 1`, sum the four counters with
default 0, return `round((total / impressions) * 100, 2)`. -/
def calculate_engagement_rate (post : Record) : Except Unit ℚ := do
  let impressions := pyOr (dgetD post "impressions" (.int 1)) (.int 1)
  let t1 ← pyAdd (dgetD post "likes" (.int 0)) (dgetD post "comments" (.int 0))
  let t2 ← pyAdd t1 (dgetD post "shares" (.int 0))
  let total ← pyAdd t2 (dgetD post "clicks" (.int 0))
  let q ← pyDivQ total impressions
  pure (round2 (qmul q (Rat.divInt 100 1)))

/-- `calculate_engagement_rate` from `app/webhook_server.py` (lines 99–102):
identical except `impressions = post.get('impressions', 1)` — no `or 1`
guard, so an explicit zero impressions value reaches the division. -/
def calculate_engagement_rate_ws (post : Record) : Except Unit ℚ := do
  let impressions := dgetD post "impressions" (.int 1)
  let t1 ← pyAdd (dgetD post "likes" (.int 0)) (dgetD post "comments" (.int 0))
  let t2 ← pyAdd t1 (dgetD post "shares" (.int 0))
  let total ← pyAdd t2 (dgetD post "clicks" (.int 0))
  let q ← pyDivQ total impressions
  pure (round2 (qmul q (Rat.divInt 100 1)))

/-- The record `{likes: l, comments: c, shares: s, clicks: cl, impressions: i}`
with integer values, as handed to the engagement calculators. -/
def intPost (l c s cl i : ℤ) : Record :=
  [("likes", .int l), ("comments", .int c), ("shares", .int s),
   ("clicks", .int cl), ("impressions", .int i)]

/-- A word character of the regexes `#\w+` / `@\w+` (the ASCII reading of
Python's `\w`: letters, digits, underscore; all inputs in this development
are ASCII). -/
def isWordChar (c : Char) : Bool := c.isAlphanum || c == '_'

/-- Left-to-right scan implementing `re.findall` for the pattern
`sigil · \w+`: non-overlapping matches in order of appearance, each taking
the maximal run of word characters after the sigil, duplicates kept. The
second argument is the word-character run of the match currently open
(`Option.none` when no match is open). -/
def scanTags (sigil : Char) : List Char → Option (List Char) → List String
  | [], Option.none => []
  | [], some run => if run.isEmpty then [] else [String.mk (sigil :: run)]
  | c :: cs, Option.none =>
    if c = sigil then scanTags sigil cs (some []) else scanTags sigil cs Option.none
  | c :: cs, some run =>
    if isWordChar c then scanTags sigil cs (some (run ++ [c]))
    else
      (if run.isEmpty then [] else [String.mk (sigil :: run)]) ++
        (if c = sigil then scanTags sigil cs (some []) else scanTags sigil cs Option.none)

/-- `re.findall(sigil + r'\w+', s)`. -/
def findTags (sigil : Char) (s : String) : List String := scanTags sigil s.toList Option.none

/-- `extract_hashtags_and_mentions` from `app/main.py` (lines 96–105):
falsy content yields two empty lists, otherwise the two `re.findall` scans
(`re.findall` on a non-string raises `TypeError`). -/
def extract_hashtags_and_mentions (content : PyVal) : Except Unit (List String × List String) :=
  if !truthy content then .ok ([], [])
  else
    match content with
    | .str s => .ok (findTags '#' s, findTags '@' s)
    | _ => .error ()

/-! ### CSV decoding (`parse_csv_content`, `app/main.py` lines 69–94)

`csv.DictReader` semantics for the inputs this pipeline sees (comma-separated
fields, no quoting in play): the first non-blank line is the header; each
subsequent non-blank line is zipped with the header, short rows are padded
with `None` (the reader's `restval`), extra fields beyond the header land in
a list under the `None` key (`restkey`). Blank lines are skipped by the
reader. -/

/-- One `csv.DictReader` row: header keys paired with the row's fields,
missing fields as `None`, extra fields under the `Option.none` key. -/
def dictReaderRow (hs fs : List String) : List (Option String × PyVal) :=
  (hs.zip ((fs.map PyVal.str) ++ List.replicate (hs.length - fs.length) PyVal.none)).map
    (fun p => (some p.1, p.2)) ++
    (if hs.length < fs.length then
      [(Option.none, PyVal.list (PyList.ofList ((fs.drop hs.length).map PyVal.str)))]
    else [])

/-- Split a CSV line into its comma-separated fields. -/
def splitFields (line : String) : List String := (splitOnChar ',' line.toList).map String.mk

/-- The rows `csv.DictReader(io.StringIO(content))` yields. -/
def dictReaderRows (content : String) : List (List (Option String × PyVal)) :=
  match ((splitOnChar '\n' content.toList).map String.mk).filter (fun l => l ≠ "") with
  | [] => []
  | header :: rest => rest.map (fun line => dictReaderRow (splitFields header) (splitFields line))

/-- `v.strip() if isinstance(v, str) else v`. -/
def stripVal : PyVal → PyVal
  | .str t => .str (pyStrip t)
  | w => w

/-- The per-row cleanup
`{k.strip(): v.strip() if isinstance(v, str) else v for k, v in row.items()}`:
string values are trimmed, keys are trimmed — and `k.strip()` raises
`AttributeError` when `k` is the `None` restkey of a row that had extra
fields. -/
def cleanRow : List (Option String × PyVal) → Except Unit Record
  | [] => .ok []
  | (Option.none, _) :: _ => .error ()
  | (some k, v) :: rest => do
    let r ← cleanRow rest
    pure ((pyStrip k, stripVal v) :: r)

/-- `parse_csv_content` from `app/main.py`: each reader row is cleaned; a row
whose cleanup raises is logged and skipped (`continue`), the rest are kept in
order. -/
def parse_csv_content (content : String) : List Record :=
  (dictReaderRows content).filterMap (fun row => (cleanRow row).toOption)

/-! ### Persistence model -/

/-- A row of the `company_profile` table, as the payload of the upsert at
`app/main.py` lines 478–489 builds it. -/
structure CompanyRow where
  name : PyVal
  linkedin_url : PyVal
  followers : PyVal
  website : PyVal
  description : PyVal
  industry : PyVal
  company_size : PyVal
  specialties : PyVal
  location : PyVal
  fetched_at : String
  deriving DecidableEq

/-- A row of the `posts` table (payloads at lines 135–144 and 496–505). -/
structure PostRow where
  linkedin_post_id : PyVal
  content : PyVal
  post_type : PyVal
  published_at : PyVal
  author_id : PyVal
  hashtags : PyVal
  mentions : PyVal
  raw_data : PyVal
  deriving DecidableEq

/-- A row of the `engagement_metrics` table (payloads at lines 150–161 and
509–518); `post_id` is the persisted identity of the parent post. -/
structure MetricsRow where
  post_id : Nat
  likes : PyVal
  comments : PyVal
  shares : PyVal
  impressions : PyVal
  clicks : PyVal
  engagement_rate : ℚ
  measured_at : String
  deriving DecidableEq

/-- The relational store: rows of the three tables (each row of the keyed
tables paired with its persisted identity) and the next fresh identity. -/
structure DB where
  companies : List (Nat × CompanyRow)
  posts : List (Nat × PostRow)
  metrics : List MetricsRow
  nextId : Nat
  deriving DecidableEq

def emptyDB : DB := ⟨[], [], [], 0⟩

/-- The persistence collaborator, as the pipeline calls it: each operation
receives the current store and returns the store it leaves behind together
with either the call result (the affected identities, for the posts upsert)
or an exception. -/
structure Persist where
  companyUpsert : CompanyRow → DB → DB × Except Unit Unit
  postsUpsert : PostRow → DB → DB × Except Unit (List Nat)
  metricsUpsert : MetricsRow → DB → DB × Except Unit Unit
  metricsInsert : MetricsRow → DB → DB × Except Unit Unit

/-- Modelled from the spec: the collaborator operation
`upsert(table, natural_key_fields, record) -> persisted_identity` on a keyed
table — replace every row whose natural key (under `key`) matches, returning
the identities of the affected rows, else append a fresh row under a fresh
identity. -/
def tblUpsert {α : Type} (key : α → PyVal) (rows : List (Nat × α)) (x : α) (fresh : Nat) :
    List (Nat × α) × List Nat × Nat :=
  if rows.any (fun p => key p.2 == key x) then
    (rows.map (fun p => if key p.2 = key x then (p.1, x) else p),
     rows.filterMap (fun p => if key p.2 = key x then some p.1 else Option.none),
     fresh)
  else (rows ++ [(fresh, x)], [fresh], fresh + 1)

/-- Natural key of `company_profile` (the spec: upsert keyed by name). -/
def companyKey (c : CompanyRow) : PyVal := c.name

/-- Natural key of `posts` (the spec: upsert keyed by `linkedin_post_id`). -/
def postKey (p : PostRow) : PyVal := p.linkedin_post_id

/-- Modelled from the spec: the real Supabase collaborator. Upserts on the
keyed tables resolve on the natural key (`name` for `company_profile`,
`linkedin_post_id` for `posts`); writes to `engagement_metrics` always insert
a fresh row — the metrics payload carries no key that could match an
existing row, and the spec fixes "metrics are never updated in place, only
inserted". Every operation succeeds. -/
def supabaseModel : Persist where
  companyUpsert c db :=
    let t := tblUpsert companyKey db.companies c db.nextId
    ({ db with companies := t.1, nextId := t.2.2 }, .ok ())
  postsUpsert p db :=
    let t := tblUpsert postKey db.posts p db.nextId
    ({ db with posts := t.1, nextId := t.2.2 }, .ok t.2.1)
  metricsUpsert m db := ({ db with metrics := db.metrics ++ [m] }, .ok ())
  metricsInsert m db := ({ db with metrics := db.metrics ++ [m] }, .ok ())

/-! ### The CSV ingestion loop (`process_csv_posts`, `app/main.py` 107–170) -/

/-- The `or`-chain `post.get(k1) or post.get(k2) or ... or default` used for
every field extraction of the CSV path. -/
def orChain (post : Record) (keys : List String) (d : PyVal) : PyVal :=
  match keys with
  | [] => d
  | k :: ks => pyOr (dget post k) (orChain post ks d)

/-- The numeric field extraction of the CSV path:
`int(post.get(k1) or post.get(k2) or ... or 0)` — the `or`-chain skips falsy
values (absent keys, `None`, empty strings, zeros) and `int(...)` coerces the
first truthy one, raising on non-numeric text. -/
def extractIntField (post : Record) (keys : List String) : Except Unit Int :=
  pyToInt (orChain post keys (.int 0))

/-- `f"{content[:100]}{published_at}"`, the seed of the fallback post id
(line 132). Both values are strings for every record the CSV decoder can
produce; a non-string, non-sliceable `content` raises `TypeError`. (A
list-valued `content` would slice in Python; the CSV decoder produces only
strings here, so that unreachable case is folded into the raising branch.) -/
def postIdSeed : PyVal → PyVal → Except Unit String
  | .str c, .str pub => .ok (String.mk (c.toList.take 100) ++ pub)
  | _, _ => .error ()

/-- The record `{'likes': .., 'comments': .., 'shares': .., 'impressions': ..}`
passed to `calculate_engagement_rate` by the CSV path (lines 157–159) — note
it carries no `clicks` key. -/
def csvRateArg (likes comments shares impressions : Int) : Record :=
  [("likes", .int likes), ("comments", .int comments),
   ("shares", .int shares), ("impressions", .int impressions)]

/-- The pure (pre-upsert) part of a CSV iteration, lines 116–144: the field
extractions in source order — string `or`-chains, then the four `int(...)`
extractions (which raise on non-numeric text), then hashtag/mention
extraction, then the post id — and the built `posts` payload. -/
def csvPostRow (md5 : String → String) (post : Record) :
    Except Unit (PostRow × Int × Int × Int × Int) := do
  let content := orChain post ["content", "Content", "text", "Text", "postContent"] (.str "")
  let post_url := orChain post ["postUrl", "Post URL", "url", "URL"] (.str "")
  let published_at :=
    orChain post ["publishedAt", "Published At", "date", "Date", "createdAt"] (.str "")
  let author := orChain post ["author", "Author", "authorName", "profileName"] (.str "")
  let likes ← extractIntField post ["likes", "Likes", "likeCount"]
  let comments ← extractIntField post ["comments", "Comments", "commentCount"]
  let shares ← extractIntField post ["shares", "Shares", "shareCount", "reposts"]
  let impressions ← extractIntField post ["impressions", "Impressions", "views"]
  let tags ← extract_hashtags_and_mentions content
  let seed ← postIdSeed content published_at
  let post_id := pyOr post_url (.str (md5 seed))
  pure ({ linkedin_post_id := post_id
        , content := content
        , post_type := orChain post ["postType", "type"] (.str "post")
        , published_at := published_at
        , author_id := author
        , hashtags := .list (PyList.ofList (tags.1.map .str))
        , mentions := .list (PyList.ofList (tags.2.map .str))
        , raw_data := .dict (PyDict.ofRecord post) }, likes, comments, shares, impressions)

/-- The `engagement_metrics` payload of the CSV path (lines 150–161):
`post_id` is the identity the posts upsert returned. -/
def csvMetricsRow (id : Nat) (likes comments shares impressions clicks : Int) (rate : ℚ)
    (now : String) : MetricsRow :=
  { post_id := id, likes := .int likes, comments := .int comments
  , shares := .int shares, impressions := .int impressions
  , clicks := .int clicks, engagement_rate := rate, measured_at := now }

/-- One iteration of the `for` loop of `process_csv_posts` (lines 111–164)
before the surrounding `try/except`: `.error db2` means the iteration raised
with the store left in state `db2`. The `Bool` reports whether
`processed_count` was incremented. The `clicks` extraction and the rate
computation happen while the metrics payload is built, after the post
upsert (line 150–159); `processed_count += 1` runs only after the metrics
write, inside the `if post_insert.data` block. -/
def csvStepRaw (P : Persist) (md5 : String → String) (now : String) (post : Record)
    (db : DB) : Except DB (DB × Bool) :=
  match csvPostRow md5 post with
  | .error _ => .error db
  | .ok (row, likes, comments, shares, impressions) =>
    let u := P.postsUpsert row db
    match u.2 with
    | .error _ => .error u.1
    | .ok ids =>
      match ids with
      | [] => .ok (u.1, false)
      | id :: _ =>
        match extractIntField post ["clicks", "Clicks"] with
        | .error _ => .error u.1
        | .ok clicks =>
          match calculate_engagement_rate (csvRateArg likes comments shares impressions) with
          | .error _ => .error u.1
          | .ok rate =>
            let w := P.metricsUpsert (csvMetricsRow id likes comments shares impressions clicks rate now) u.1
            match w.2 with
            | .error _ => .error w.1
            | .ok _ => .ok (w.1, true)

/-- The caught loop body: a raised iteration is logged and the loop continues
(`except ... continue`, lines 166–168). -/
def csvStep (P : Persist) (md5 : String → String) (now : String) (post : Record) (db : DB) :
    DB × Bool :=
  match csvStepRaw P md5 now post db with
  | .ok r => r
  | .error db2 => (db2, false)

/-- `process_csv_posts`: fold the caught step over the batch, counting
processed records. -/
def process_csv_posts (P : Persist) (md5 : String → String) (now : String) :
    List Record → DB → Nat × DB
  | [], db => (0, db)
  | post :: rest, db =>
    let s := csvStep P md5 now post db
    let r := process_csv_posts P md5 now rest s.1
    ((if s.2 then 1 else 0) + r.1, r.2)

/-! ### The JSON webhook loop (`app/main.py` lines 469–528) -/

/-- A record classification, following §4.3 of the spec. -/
inductive Classification where
  | company
  | post
  | unrecognized
  deriving DecidableEq

/-- The classification decision of the JSON webhook loop (lines 476 and 494)
on a dict item: `if 'companyName' in item`, `elif 'postId' in item`, else
unknown — key presence tests. -/
def classifyRecord (r : Record) : Classification :=
  if containsKey r "companyName" then .company
  else if containsKey r "postId" then .post
  else .unrecognized

/-- The classification rule as the claim words it (spec §4.3): a record with
a non-null `companyName` is a Company; else one with a non-null `postId` is a
Post; else Unrecognized. (A key that is absent and a key that is present with
a null value both read back as `None`.) Stated only to be compared with the
code's `classifyRecord`. -/
def claimClassify (r : Record) : Classification :=
  if dget r "companyName" ≠ .none then .company
  else if dget r "postId" ≠ .none then .post
  else .unrecognized

/-- The `company_profile` payload (lines 478–489). -/
def jsonCompanyRow (r : Record) (now : String) : CompanyRow :=
  { name := dget r "companyName"
  , linkedin_url := dgetD r "companyUrl" (.str "")
  , followers := dgetD r "followerCount" (.int 0)
  , website := dgetD r "website" (.str "")
  , description := dgetD r "description" (.str "")
  , industry := dgetD r "industry" (.str "")
  , company_size := dgetD r "companySize" (.str "")
  , specialties := .list .nil
  , location := dgetD r "location" (.str "")
  , fetched_at := now }

/-- The `posts` payload (lines 496–505). -/
def jsonPostRow (r : Record) : PostRow :=
  { linkedin_post_id := dget r "postId"
  , content := dgetD r "content" (.str "")
  , post_type := dgetD r "postType" (.str "")
  , published_at := dgetD r "publishedAt" (.str "")
  , author_id := dgetD r "authorId" (.str "")
  , hashtags := dgetD r "hashtags" (.list .nil)
  , mentions := dgetD r "mentions" (.list .nil)
  , raw_data := .dict (PyDict.ofRecord r) }

/-- The `engagement_metrics` payload (lines 509–518): `post_id` is the
identity the posts upsert returned. -/
def jsonMetricsRow (id : Nat) (r : Record) (now : String) (rate : ℚ) : MetricsRow :=
  { post_id := id
  , likes := dgetD r "likes" (.int 0)
  , comments := dgetD r "comments" (.int 0)
  , shares := dgetD r "shares" (.int 0)
  , impressions := dgetD r "impressions" (.int 0)
  , clicks := dgetD r "clicks" (.int 0)
  , engagement_rate := rate
  , measured_at := now }

/-- Is `needle` a contiguous run of `hay` (Python `sub in str`)? -/
def listPrefixOf : List Char → List Char → Bool
  | [], _ => true
  | _ :: _, [] => false
  | a :: as, b :: bs => a == b && listPrefixOf as bs

def listInfixOf (needle : List Char) : List Char → Bool
  | [] => needle.isEmpty
  | c :: t => listPrefixOf needle (c :: t) || listInfixOf needle t

def strContains (hay needle : String) : Bool := listInfixOf needle.toList hay.toList

/-- One iteration of the JSON webhook loop (lines 471–524) before the
surrounding `try/except`; `.error db2` is a raised iteration with the store
at `db2`, and the `Nat` is the `processed_items` contribution. On a dict
item the two presence checks run in order; the unknown branch only logs. On
a non-dict item, `'companyName' in item` is a substring test for strings and
an element-equality test for lists — a hit then raises on the subsequent
string-keyed indexing — and raises `TypeError` outright for ints, bools and
`None`. -/
def jsonItemStepRaw (P : Persist) (now : String) (item : PyVal) (db : DB) :
    Except DB (DB × Nat) :=
  match item with
  | .dict dd =>
    let r := dd.toRecord
    if containsKey r "companyName" then
      let u := P.companyUpsert (jsonCompanyRow r now) db
      match u.2 with
      | .error _ => .error u.1
      | .ok _ => .ok (u.1, 1)
    else if containsKey r "postId" then
      let u := P.postsUpsert (jsonPostRow r) db
      match u.2 with
      | .error _ => .error u.1
      | .ok ids =>
        match ids with
        | [] => .ok (u.1, 0)
        | id :: _ =>
          match calculate_engagement_rate r with
          | .error _ => .error u.1
          | .ok rate =>
            let w := P.metricsInsert (jsonMetricsRow id r now rate) u.1
            match w.2 with
            | .error _ => .error w.1
            | .ok _ => .ok (w.1, 1)
    else .ok (db, 0)
  | .str s =>
    if strContains s "companyName" then .error db
    else if strContains s "postId" then .error db
    else .ok (db, 0)
  | .list l =>
    if (PyList.toList l).any (fun v => v == .str "companyName") then .error db
    else if (PyList.toList l).any (fun v => v == .str "postId") then .error db
    else .ok (db, 0)
  | _ => .error db

/-- The caught loop body (`except ... continue`, lines 526–528). -/
def jsonItemStep (P : Persist) (now : String) (item : PyVal) (db : DB) : DB × Nat :=
  match jsonItemStepRaw P now item db with
  | .ok r => r
  | .error db2 => (db2, 0)

/-- The `for i, item in enumerate(result_data)` loop. -/
def jsonLoop (P : Persist) (now : String) : List PyVal → DB → Nat × DB
  | [], db => (0, db)
  | item :: rest, db =>
    let s := jsonItemStep P now item db
    let r := jsonLoop P now rest s.1
    (s.2 + r.1, r.2)

/-! ### The `/webhook` handler (`app/main.py` lines 407–549) -/

/-- The JSON body the handler returns (only the fields the claims speak
about; the human-readable `message` texts are abridged). -/
structure WebhookResp where
  status : String
  message : String
  processed_count : Option Nat := Option.none
  total_count : Option Nat := Option.none
  format : Option String := Option.none
  deriving DecidableEq

/-- The CSV-URL extraction of the webhook (line 425):
`data.get('csvUrl') or data.get('csv_url') or data.get('downloadUrl') or
data.get('resultUrl')`. -/
def csvUrlOf (d : Record) : PyVal :=
  pyOr (dget d "csvUrl") (pyOr (dget d "csv_url") (pyOr (dget d "downloadUrl") (dget d "resultUrl")))

/-- The `/webhook` handler. External collaborators are parameters: `download`
models `download_csv_from_url` (`Option.none` is the caught
`RequestException`, which makes the helper return `None`), `jsonParse`
models `json.loads` on the strings it accepts. `avail` is whether the
module-level Supabase client exists; `data` is `request.json`
(`Option.none`: no JSON body). Result: HTTP status, response body, and the
store left behind. -/
def webhook (P : Persist) (md5 : String → String) (now : String)
    (download : PyVal → Option String) (jsonParse : String → Except Unit PyVal)
    (avail : Bool) (data : Option PyVal) (db : DB) : (Nat × WebhookResp) × DB :=
  if !avail then
    ((500, { status := "error", message := "Database connection not available" }), db)
  else
    match data with
    | Option.none => ((400, { status := "error", message := "No JSON data received" }), db)
    | some v =>
      if !truthy v then ((400, { status := "error", message := "No JSON data received" }), db)
      else
        match v with
        | .dict dd =>
          let d := dd.toRecord
          let csv_url := csvUrlOf d
          if truthy csv_url then
            match download csv_url with
            | Option.none => ((400, { status := "error", message := "Failed to download CSV" }), db)
            | some content =>
              if content = "" then
                ((400, { status := "error", message := "Failed to download CSV" }), db)
              else
                let posts_data := parse_csv_content content
                if posts_data.isEmpty then
                  ((400, { status := "error", message := "No valid posts found in CSV" }), db)
                else
                  let r := process_csv_posts P md5 now posts_data db
                  ((200, { status := "success", message := "CSV processed"
                         , processed_count := some r.1
                         , total_count := some posts_data.length
                         , format := some "CSV" }), r.2)
          else if containsKey d "resultObject" then
            match dget d "resultObject" with
            | .str s =>
              match jsonParse s with
              | .error _ =>
                ((400, { status := "error", message := "Invalid JSON in resultObject" }), db)
              | .ok (.list items) =>
                let r := jsonLoop P now (PyList.toList items) db
                ((200, { status := "success", message := "JSON processed"
                       , processed_count := some r.1
                       , format := some "JSON" }), r.2)
              | .ok _ =>
                ((400, { status := "error", message := "resultObject should contain a list" }), db)
            | _ =>
              ((500, { status := "error", message := "Internal server error" }), db)
          else
            ((400, { status := "error"
                   , message := "No CSV URL or resultObject found in webhook data" }), db)
        | _ =>
          ((500, { status := "error", message := "Internal server error" }), db)

/-! ### Concrete collaborators used by witnesses and counterexamples -/

/-- A concrete stand-in for the `hashlib.md5` hex digest (the pipeline treats
the hash as an opaque external function; theorems quantify over it). -/
def md5id : String → String := fun s => s

/-- A download oracle returning a fixed CSV body. -/
def dlConst (body : String) : PyVal → Option String := fun _ => some body

/-- A `json.loads` oracle that always fails to parse. -/
def jpFail : String → Except Unit PyVal := fun _ => .error ()

/-- A collaborator whose posts upsert succeeds but reports no affected rows
(`post_insert.data` empty), as the warning branch of the source expects. -/
def emptyDataPersist : Persist :=
  { supabaseModel with postsUpsert := fun _ db => (db, .ok []) }

/-- A `json.loads` oracle that parses everything to the empty list. -/
def jpEmptyList : String → Except Unit PyVal := fun _ => .ok (.list .nil)

/-- A faulty persistence collaborator: the posts upsert raises on the post
whose natural key is `"u3"`, everything else behaves like the store model. -/
def faultyAtU3 : Persist :=
  { supabaseModel with
    postsUpsert := fun p db =>
      if p.linkedin_post_id == .str "u3" then (db, .error ())
      else supabaseModel.postsUpsert p db }

/-- The 5-row CSV batch of the spec scenario: record 3 throws during
persistence under `faultyAtU3`. -/
def csv5 : String := "postUrl,likes\nu1,1\nu2,1\nu3,1\nu4,1\nu5,1"

/-- The portion of the original character list a `scanTags` state stands for:
with a match open on `run`, the sigil and the run read so far come before the
remaining characters. -/
def scanCtx (sigil : Char) (cs : List Char) : Option (List Char) → List Char
  | Option.none => cs
  | some run => sigil :: (run ++ cs)

/-! ### Replay abstractions used by the idempotence analysis -/

/-- Replace the payload of every row whose natural key matches `x`'s. -/
def replOne {α : Type} (key : α → PyVal) (x : α) (p : Nat × α) : Nat × α :=
  if key p.2 = key x then (p.1, x) else p

/-- Fold a sequence of upserts over a keyed table, threading the fresh-id
supply. -/
def applyUpserts {α : Type} (key : α → PyVal) :
    List α → List (Nat × α) → Nat → List (Nat × α) × Nat
  | [], rows, f => (rows, f)
  | x :: ws, rows, f =>
    applyUpserts key ws (tblUpsert key rows x f).1 (tblUpsert key rows x f).2.2

/-- The last write of a sequence whose natural key is `k`. -/
def lastWrite {α : Type} (key : α → PyVal) (k : PyVal) : List α → Option α
  | [] => Option.none
  | x :: ws =>
    match lastWrite key k ws with
    | some y => some y
    | Option.none => if key x = k then some x else Option.none

/-- Rewrite a row to the last write of its key, if any. -/
def finalRepl {α : Type} (key : α → PyVal) (ws : List α) (p : Nat × α) : Nat × α :=
  match lastWrite key (key p.2) ws with
  | some y => (p.1, y)
  | Option.none => p

/-- The `posts` payloads a CSV batch upserts (records whose pure extraction
stage succeeds), in order. -/
def csvWrites (md5 : String → String) (posts : List Record) : List PostRow :=
  posts.filterMap (fun post => ((csvPostRow md5 post).toOption).map (fun t => t.1))

/-- Does a CSV record get fully processed under a total store (extraction and
clicks both parse)? -/
def csvOkB (md5 : String → String) (post : Record) : Bool :=
  ((csvPostRow md5 post).toOption).isSome &&
    ((extractIntField post ["clicks", "Clicks"]).toOption).isSome

/-- The `company_profile` payloads a JSON batch upserts, in order. -/
def jsonCompanyWrites (now : String) (items : List PyVal) : List CompanyRow :=
  items.filterMap (fun item =>
    match item with
    | .dict dd =>
      if containsKey dd.toRecord "companyName" then some (jsonCompanyRow dd.toRecord now)
      else Option.none
    | _ => Option.none)

/-- The `posts` payloads a JSON batch upserts, in order. -/
def jsonPostWrites (items : List PyVal) : List PostRow :=
  items.filterMap (fun item =>
    match item with
    | .dict dd =>
      if containsKey dd.toRecord "companyName" then Option.none
      else if containsKey dd.toRecord "postId" then some (jsonPostRow dd.toRecord)
      else Option.none
    | _ => Option.none)

/-- The `processed_items` contribution of a JSON item under a total store. -/
def jsonProcW (item : PyVal) : Nat :=
  match item with
  | .dict dd =>
    if containsKey dd.toRecord "companyName" then 1
    else if containsKey dd.toRecord "postId" then
      (if ((calculate_engagement_rate dd.toRecord).toOption).isSome then 1 else 0)
    else 0
  | _ => 0

/-- The number of metrics rows a JSON item appends under a total store. -/
def jsonMetricsW (item : PyVal) : Nat :=
  match item with
  | .dict dd =>
    if containsKey dd.toRecord "companyName" then 0
    else if containsKey dd.toRecord "postId" then
      (if ((calculate_engagement_rate dd.toRecord).toOption).isSome then 1 else 0)
    else 0
  | _ => 0

/-- Overwrite the ingestion timestamp (used to compare company rows of two
ingestions up to `fetched_at`, which is by design rewritten each run). -/
def setFetched (t : String) (c : CompanyRow) : CompanyRow := { c with fetched_at := t }

/-- The facts one ingestion run of the JSON loop establishes, over the store
model: the processed count and metrics growth are sums of per-item weights;
every upserted natural key is present afterwards (and presence is
preserved); rows whose key is never written pass through untouched; and a
row whose key was written holds the LAST write of that key. -/
structure JsonRunFacts (now : String) (items : List PyVal) (db : DB) : Prop where
  count : (jsonLoop supabaseModel now items db).1 = (items.map jsonProcW).sum
  metrics : (jsonLoop supabaseModel now items db).2.metrics.length =
    db.metrics.length + (items.map jsonMetricsW).sum
  cpresent : ∀ x ∈ jsonCompanyWrites now items,
    ∃ p ∈ (jsonLoop supabaseModel now items db).2.companies, companyKey p.2 = companyKey x
  ppresent : ∀ x ∈ jsonPostWrites items,
    ∃ p ∈ (jsonLoop supabaseModel now items db).2.posts, postKey p.2 = postKey x
  cpres : ∀ k, (∃ p ∈ db.companies, companyKey p.2 = k) →
    ∃ p ∈ (jsonLoop supabaseModel now items db).2.companies, companyKey p.2 = k
  ppres : ∀ k, (∃ p ∈ db.posts, postKey p.2 = k) →
    ∃ p ∈ (jsonLoop supabaseModel now items db).2.posts, postKey p.2 = k
  cuntouched : ∀ p, (∀ x ∈ jsonCompanyWrites now items, companyKey x ≠ companyKey p.2) →
    (p ∈ (jsonLoop supabaseModel now items db).2.companies ↔ p ∈ db.companies)
  puntouched : ∀ p, (∀ x ∈ jsonPostWrites items, postKey x ≠ postKey p.2) →
    (p ∈ (jsonLoop supabaseModel now items db).2.posts ↔ p ∈ db.posts)
  clast : ∀ p ∈ (jsonLoop supabaseModel now items db).2.companies, ∀ y,
    lastWrite companyKey (companyKey p.2) (jsonCompanyWrites now items) = some y → p.2 = y
  plast : ∀ p ∈ (jsonLoop supabaseModel now items db).2.posts, ∀ y,
    lastWrite postKey (postKey p.2) (jsonPostWrites items) = some y → p.2 = y

/-! ## Lemmas and claim theorems -/

lemma qmul_eq_mul (a b : ℚ) : qmul a b = a * b := by
  rw [qmul, Rat.divInt_eq_div]
  conv_rhs => rw [← Rat.num_div_den a, ← Rat.num_div_den b, div_mul_div_comm]
  push_cast
  ring

lemma pyOr_int_pos {i : ℕ} (hi : 0 < i) (d : PyVal) : pyOr (.int (i : ℤ)) d = .int (i : ℤ) := by
  have : truthy (.int (i : ℤ)) = true := by
    simp only [truthy, bne_iff_ne, ne_eq, Int.natCast_eq_zero]
    exact hi.ne'
  simp [pyOr, this]

/-- Unfolding of `calculate_engagement_rate` on an all-integer record. -/
lemma engagement_rate_intPost (l c s cl i : ℕ) :
    calculate_engagement_rate (intPost (l : ℤ) c s cl i) =
      .ok (round2 ((((l : ℚ) + c + s + cl) / (if 0 < i then (i : ℚ) else 1)) * 100)) := by
  rcases Nat.eq_zero_or_pos i with hi | hi
  · subst hi
    show Except.ok (round2 (qmul (Rat.divInt ((l : ℤ) + c + s + cl) 1) (Rat.divInt 100 1))) = _
    rw [qmul_eq_mul, Rat.divInt_eq_div, Rat.divInt_eq_div]
    norm_num
  · have h1 : calculate_engagement_rate (intPost (l : ℤ) c s cl i) =
        (pyDivQ (.int ((l : ℤ) + c + s + cl)) (pyOr (.int (i : ℤ)) (.int 1))).map
          (fun q => round2 (qmul q (Rat.divInt 100 1))) := rfl
    rw [h1, pyOr_int_pos hi]
    have hz : ((i : ℤ)) ≠ 0 := Int.natCast_ne_zero.mpr hi.ne'
    have h2 : pyDivQ (.int ((l : ℤ) + c + s + cl)) (.int (i : ℤ)) =
        .ok (Rat.divInt ((l : ℤ) + c + s + cl) (i : ℤ)) := by
      simp [pyDivQ, pyNum?, hz]
    rw [h2]
    show Except.ok (round2 (qmul (Rat.divInt ((l : ℤ) + c + s + cl) (i : ℤ)) (Rat.divInt 100 1))) = _
    rw [if_pos hi, qmul_eq_mul, Rat.divInt_eq_div, Rat.divInt_eq_div]
    norm_num

lemma engagement_rate_ws_pos (l c s cl i : ℕ) (hi : 0 < i) :
    calculate_engagement_rate_ws (intPost l c s cl i) =
      .ok (round2 ((((l : ℚ) + c + s + cl) / (i : ℚ)) * 100)) := by
  have h1 : calculate_engagement_rate_ws (intPost (l : ℤ) c s cl i) =
      (pyDivQ (.int ((l : ℤ) + c + s + cl)) (.int (i : ℤ))).map
        (fun q => round2 (qmul q (Rat.divInt 100 1))) := rfl
  have hz : ((i : ℤ)) ≠ 0 := Int.natCast_ne_zero.mpr hi.ne'
  have h2 : pyDivQ (.int ((l : ℤ) + c + s + cl)) (.int (i : ℤ)) =
      .ok (Rat.divInt ((l : ℤ) + c + s + cl) (i : ℤ)) := by
    simp [pyDivQ, pyNum?, hz]
  rw [h1, h2]
  show Except.ok (round2 (qmul (Rat.divInt ((l : ℤ) + c + s + cl) (i : ℤ)) (Rat.divInt 100 1))) = _
  rw [qmul_eq_mul, Rat.divInt_eq_div, Rat.divInt_eq_div]
  norm_num

lemma engagement_rate_ws_zero (l c s cl : ℕ) :
    calculate_engagement_rate_ws (intPost l c s cl ((0 : ℕ) : ℤ)) = .error () := rfl

/-- C2. The engagement-rate calculation of `app/main.py` follows the claimed
formula on all non-negative integer inputs — zero impressions fall back to
denominator 1 — reproduces the three claimed sample values, and is not
clamped to `[0, 100]` (the value 400 is returned as-is). The
`webhook_server.py` variant cited by the same claim satisfies the formula
only for positive impressions; with the impressions key present and zero it
raises `ZeroDivisionError` instead of returning 400.0 (see the
counterexample), which is the one amendment. -/
theorem claim_C2 :
    (∀ l c s cl i : ℕ, calculate_engagement_rate (intPost l c s cl i) =
      .ok (round2 ((((l : ℚ) + c + s + cl) / (if 0 < i then (i : ℚ) else 1)) * 100))) ∧
    calculate_engagement_rate (intPost 0 0 0 0 0) = .ok 0 ∧
    calculate_engagement_rate (intPost 1 1 1 1 0) = .ok 400 ∧
    calculate_engagement_rate (intPost 1 1 1 1 10) = .ok 40 ∧
    (100 : ℚ) < 400 ∧
    (∀ l c s cl i : ℕ, 0 < i → calculate_engagement_rate_ws (intPost l c s cl i) =
      .ok (round2 ((((l : ℚ) + c + s + cl) / (i : ℚ)) * 100))) ∧
    (∀ l c s cl : ℕ, calculate_engagement_rate_ws (intPost l c s cl ((0 : ℕ) : ℤ)) = .error ()) :=
  ⟨engagement_rate_intPost, by decide, by decide, by decide, by norm_num,
   fun l c s cl i hi => engagement_rate_ws_pos l c s cl i hi,
   fun l c s cl => engagement_rate_ws_zero l c s cl⟩

/-- C2 counterexample: at `rate(1,1,1,1,0)` the claim demands 400.0, but the
`calculate_engagement_rate` of `app/webhook_server.py` — one of the two
functions the claim cites — raises `ZeroDivisionError` (the `error` value)
rather than returning anything. -/
theorem claim_C2_cex :
    calculate_engagement_rate_ws (intPost 1 1 1 1 0) = .error () ∧
    calculate_engagement_rate (intPost 1 1 1 1 0) = .ok 400 ∧
    (Except.error () : Except Unit ℚ) ≠ .ok 400 :=
  ⟨by decide, by decide, by decide⟩

/-- C2 witness: the amended theorem applied at concrete inputs. -/
theorem claim_C2_witness :
    calculate_engagement_rate (intPost 2 3 4 5 7) =
      .ok (round2 ((((2 : ℚ) + 3 + 4 + 5) / (if 0 < (7 : ℕ) then ((7 : ℕ) : ℚ) else 1)) * 100)) ∧
    calculate_engagement_rate_ws (intPost 2 3 4 5 7) =
      .ok (round2 ((((2 : ℚ) + 3 + 4 + 5) / ((7 : ℕ) : ℚ)) * 100)) ∧
    calculate_engagement_rate_ws (intPost 2 3 4 5 ((0 : ℕ) : ℤ)) = .error () :=
  ⟨claim_C2.1 2 3 4 5 7, claim_C2.2.2.2.2.2.1 2 3 4 5 7 (by decide),
   claim_C2.2.2.2.2.2.2 2 3 4 5⟩

lemma scanTags_shape (sigil : Char) (cs : List Char) :
    ∀ (st : Option (List Char)), (∀ run, st = some run → run.all isWordChar = true) →
      ∀ t ∈ scanTags sigil cs st,
        ∃ w, t = String.mk (sigil :: w) ∧ w ≠ [] ∧ w.all isWordChar = true ∧
          (sigil :: w) <:+: scanCtx sigil cs st := by
  induction cs with
  | nil =>
    intro st h t ht
    match st with
    | Option.none => simp [scanTags] at ht
    | some run =>
      by_cases hr : run.isEmpty
      · simp [scanTags, hr] at ht
      · simp only [scanTags, hr, if_neg, Bool.false_eq_true, ite_false, List.mem_singleton] at ht
        subst ht
        exact ⟨run, rfl, by simpa [List.isEmpty_iff] using hr, h run rfl,
          ⟨[], [], by simp [scanCtx]⟩⟩
  | cons c cs ih =>
    intro st h t ht
    match st with
    | Option.none =>
      simp only [scanTags] at ht
      by_cases hc : c = sigil
      · rw [if_pos hc] at ht
        obtain ⟨w, hw1, hw2, hw3, hw4⟩ := ih (some []) (by simp) t ht
        refine ⟨w, hw1, hw2, hw3, ?_⟩
        simp only [scanCtx, List.nil_append] at hw4
        simpa [scanCtx, hc] using hw4
      · rw [if_neg hc] at ht
        obtain ⟨w, hw1, hw2, hw3, hw4⟩ := ih Option.none (by simp) t ht
        refine ⟨w, hw1, hw2, hw3, ?_⟩
        simp only [scanCtx] at hw4 ⊢
        obtain ⟨pre, suf, hps⟩ := hw4
        exact ⟨c :: pre, suf, by simp [← hps]⟩
    | some run =>
      simp only [scanTags] at ht
      by_cases hw : isWordChar c
      · rw [if_pos hw] at ht
        obtain ⟨w, hw1, hw2, hw3, hw4⟩ := ih (some (run ++ [c]))
          (fun r hr => by
            cases hr
            simp only [List.all_append, Bool.and_eq_true]
            exact ⟨h run rfl, by simp [hw]⟩) t ht
        refine ⟨w, hw1, hw2, hw3, ?_⟩
        simp only [scanCtx] at hw4 ⊢
        simpa [List.append_assoc] using hw4
      · rw [if_neg hw] at ht
        rcases List.mem_append.mp ht with hemit | hrest
        · by_cases hr : run.isEmpty
          · simp [hr] at hemit
          · simp only [hr, Bool.false_eq_true, ite_false, List.mem_singleton] at hemit
            subst hemit
            exact ⟨run, rfl, by simpa [List.isEmpty_iff] using hr, h run rfl,
              ⟨[], c :: cs, by simp [scanCtx]⟩⟩
        · have hsuf : ∀ l : List Char, l <:+: (c :: cs) → l <:+: scanCtx sigil (c :: cs) (some run) := by
            intro l hl
            obtain ⟨pre, suf, hps⟩ := hl
            exact ⟨sigil :: (run ++ pre), suf, by simp [scanCtx, ← hps]⟩
          by_cases hc : c = sigil
          · rw [if_pos hc] at hrest
            obtain ⟨w, hw1, hw2, hw3, hw4⟩ := ih (some []) (by simp) t hrest
            refine ⟨w, hw1, hw2, hw3, hsuf _ ?_⟩
            simp only [scanCtx, List.nil_append] at hw4
            simpa [hc] using hw4
          · rw [if_neg hc] at hrest
            obtain ⟨w, hw1, hw2, hw3, hw4⟩ := ih Option.none (by simp) t hrest
            refine ⟨w, hw1, hw2, hw3, hsuf _ ?_⟩
            simp only [scanCtx] at hw4
            exact hw4.trans ⟨[c], [], by simp⟩

/-- C8. `extract_hashtags_and_mentions`: empty or absent content yields two
empty sequences; the claimed sample returns its hashtags and mentions in
order of appearance with the duplicate `#World` preserved (no
deduplication); and every returned token is the sigil followed by a
non-empty run of word characters occurring contiguously in the content. -/
theorem claim_C8 :
    extract_hashtags_and_mentions (.str "") = .ok ([], []) ∧
    extract_hashtags_and_mentions .none = .ok ([], []) ∧
    extract_hashtags_and_mentions (.str "Hello #World @Bob #World") =
      .ok (["#World", "#World"], ["@Bob"]) ∧
    (∀ (s : String) (hm : List String × List String),
      extract_hashtags_and_mentions (.str s) = .ok hm →
      (∀ t ∈ hm.1, ∃ w, t = String.mk ('#' :: w) ∧ w ≠ [] ∧ w.all isWordChar = true ∧
        ('#' :: w) <:+: s.toList) ∧
      (∀ t ∈ hm.2, ∃ w, t = String.mk ('@' :: w) ∧ w ≠ [] ∧ w.all isWordChar = true ∧
        ('@' :: w) <:+: s.toList)) := by
  refine ⟨by decide, by decide, by decide, ?_⟩
  intro s hm hok
  by_cases hs : truthy (.str s)
  · have : hm = (findTags '#' s, findTags '@' s) := by
      simp [extract_hashtags_and_mentions, hs] at hok
      exact hok.symm
    subst this
    exact ⟨fun t ht => scanTags_shape '#' s.toList Option.none (by simp) t ht,
           fun t ht => scanTags_shape '@' s.toList Option.none (by simp) t ht⟩
  · have : hm = ([], []) := by
      simp [extract_hashtags_and_mentions, hs] at hok
      exact hok.symm
    subst this
    exact ⟨fun t ht => absurd ht (by simp), fun t ht => absurd ht (by simp)⟩

/-- C8 witness: the shape clause applied to the sample content. -/
theorem claim_C8_witness :
    ∃ w, "#World" = String.mk ('#' :: w) ∧ w ≠ [] ∧ w.all isWordChar = true ∧
      ('#' :: w) <:+: ("Hello #World @Bob #World").toList :=
  (claim_C8.2.2.2 "Hello #World @Bob #World" (["#World", "#World"], ["@Bob"])
    claim_C8.2.2.1).1 "#World" (by decide)

lemma cleanRow_append_restkey :
    ∀ (l : List (Option String × PyVal)) (v : PyVal),
      (∀ p ∈ l, ∃ k, p.1 = some k) → cleanRow (l ++ [(Option.none, v)]) = .error () := by
  intro l v hl
  induction l with
  | nil => rfl
  | cons p rest ih =>
    obtain ⟨k, hk⟩ := hl p (by simp)
    obtain ⟨k0, v0⟩ := p
    cases hk
    show (do
      let r ← cleanRow (rest ++ [(Option.none, v)])
      pure ((pyStrip k, stripVal v0) :: r)) = Except.error ()
    rw [ih (fun q hq => hl q (by simp [hq]))]
    rfl

lemma cleanRow_all_keyed :
    ∀ l : List (String × PyVal),
      cleanRow (l.map (fun p => (some p.1, p.2))) =
        .ok (l.map (fun p => (pyStrip p.1, stripVal p.2))) := by
  intro l
  induction l with
  | nil => rfl
  | cons p rest ih =>
    obtain ⟨k, v⟩ := p
    show (do
      let r ← cleanRow (rest.map (fun p : String × PyVal => (some p.1, p.2)))
      pure ((pyStrip k, stripVal v) :: r)) = _
    rw [ih]
    rfl

/-- A short or exact row has no restkey entry: the reader row is the header
zipped with the padded fields, all string-keyed. -/
lemma dictReaderRow_short (hs fs : List String) (h : fs.length ≤ hs.length) :
    dictReaderRow hs fs =
      (hs.zip ((fs.map PyVal.str) ++ List.replicate (hs.length - fs.length) PyVal.none)).map
        (fun p => (some p.1, p.2)) := by
  rw [dictReaderRow, if_neg (by omega), List.append_nil]

/-- C9 amended. Row-level failure isolation of the CSV decoder, as the code
actually has it: a row with more fields than the header is skipped (its
extras land under the reader's `None` restkey and the cleanup raises
there), while a row with fewer fields than the header is KEPT, its missing
columns filled with `None`; kept rows have keys and string values trimmed.
The spec's own example decodes as claimed, and the batch with one
extra-field row still decodes the remaining rows. -/
theorem claim_C9 :
    (∀ hs fs : List String, hs.length < fs.length →
      cleanRow (dictReaderRow hs fs) = .error ()) ∧
    (∀ hs fs : List String, fs.length ≤ hs.length →
      cleanRow (dictReaderRow hs fs) =
        .ok ((hs.zip ((fs.map PyVal.str) ++ List.replicate (hs.length - fs.length) PyVal.none)).map
          (fun p => (pyStrip p.1, stripVal p.2)))) ∧
    parse_csv_content "a,b\nx,1,9\ny,2" = [[("a", .str "y"), ("b", .str "2")]] ∧
    parse_csv_content "name,likes\n Ann ,5\n" = [[("name", .str "Ann"), ("likes", .str "5")]] := by
  refine ⟨?_, ?_, by decide, by decide⟩
  · intro hs fs h
    rw [dictReaderRow, if_pos h]
    exact cleanRow_append_restkey _ _ (by
      intro p hp
      obtain ⟨q, hq, hq2⟩ := List.mem_map.mp hp
      exact ⟨q.1, by rw [← hq2]⟩)
  · intro hs fs h
    rw [dictReaderRow_short hs fs h]
    have := cleanRow_all_keyed (hs.zip ((fs.map PyVal.str) ++ List.replicate (hs.length - fs.length) PyVal.none))
    simpa using this

/-- C9 counterexample: the claim says a column-count-mismatched row is
skipped and does not appear in the decoder output; but the one-field row
`x` under the two-column header `a,b` IS returned (padded with `None`),
so the malformed row appears in the decoded sequence. -/
theorem claim_C9_cex :
    parse_csv_content "a,b\nx" = [[("a", .str "x"), ("b", .none)]] ∧
    [("a", PyVal.str "x"), ("b", PyVal.none)] ∈ parse_csv_content "a,b\nx" :=
  ⟨by decide, by decide⟩

/-- C9 witness: both cleanup clauses at concrete rows. -/
theorem claim_C9_witness :
    cleanRow (dictReaderRow ["a", "b"] ["x", "1", "9"]) = .error () ∧
    cleanRow (dictReaderRow ["a", "b"] ["x"]) =
      .ok (((["a", "b"].zip ((["x"].map PyVal.str) ++
        List.replicate (["a", "b"].length - ["x"].length) PyVal.none)).map
          (fun p => (pyStrip p.1, stripVal p.2)))) :=
  ⟨claim_C9.1 ["a", "b"] ["x", "1", "9"] (by decide),
   claim_C9.2.1 ["a", "b"] ["x"] (by decide)⟩

lemma dget_of_not_containsKey {r : Record} {k : String} (h : containsKey r k = false) :
    dget r k = .none := by
  induction r with
  | nil => rfl
  | cons p rest ih =>
    simp only [containsKey, List.any_cons, Bool.or_eq_false_iff, beq_eq_false_iff_ne, ne_eq] at h
    rw [dget, if_neg h.1]
    exact ih (by simpa [containsKey] using h.2)

lemma pyOr_falsy {a : PyVal} (h : truthy a = false) (b : PyVal) : pyOr a b = b := by
  simp [pyOr, h]

lemma pyOr_truthy {a : PyVal} (h : truthy a = true) (b : PyVal) : pyOr a b = a := by
  simp [pyOr, h]

lemma orChain_all_falsy {r : Record} {keys : List String}
    (h : ∀ k ∈ keys, truthy (dget r k) = false) (d : PyVal) : orChain r keys d = d := by
  induction keys with
  | nil => rfl
  | cons k ks ih =>
    rw [orChain, pyOr_falsy (h k (by simp))]
    exact ih (fun k2 hk2 => h k2 (by simp [hk2]))

lemma orChain_first_truthy {r : Record} (ks1 : List String) {k : String} (ks2 : List String)
    (h1 : ∀ k2 ∈ ks1, truthy (dget r k2) = false) (h : truthy (dget r k) = true) (d : PyVal) :
    orChain r (ks1 ++ k :: ks2) d = dget r k := by
  induction ks1 with
  | nil => rw [List.nil_append, orChain, pyOr_truthy h]
  | cons k0 ks ih =>
    rw [List.cons_append, orChain, pyOr_falsy (h1 k0 (by simp))]
    exact ih (fun k2 hk2 => h1 k2 (by simp [hk2]))

/-- C7 amended. Numeric field extraction: the `or`-chain tries the candidate
keys in order but skips FALSY values (absent keys, nulls, and also
present-but-empty strings and zeros), not merely absent/null ones; if every
candidate is falsy the chain ends in the default 0. The first truthy value is
coerced with `int(...)` — which RAISES `ValueError` on non-numeric text
(caught only by the per-record handler, which then skips the whole record);
it does not fall back to the typed default. -/
theorem claim_C7 :
    (∀ (r : Record) (keys : List String),
      (∀ k ∈ keys, containsKey r k = false) → extractIntField r keys = .ok 0) ∧
    (∀ (r : Record) (ks1 : List String) (k : String) (ks2 : List String),
      (∀ k2 ∈ ks1, truthy (dget r k2) = false) → truthy (dget r k) = true →
      extractIntField r (ks1 ++ k :: ks2) = pyToInt (dget r k)) ∧
    extractIntField [("likes", .str "7")] ["likes", "Likes", "likeCount"] = .ok 7 ∧
    extractIntField [("likes", .str ""), ("Likes", .str "7")] ["likes", "Likes", "likeCount"] =
      .ok 7 ∧
    extractIntField [("likes", .str "abc")] ["likes", "Likes", "likeCount"] = .error () := by
  refine ⟨?_, ?_, by decide, by decide, by decide⟩
  · intro r keys h
    rw [extractIntField,
      orChain_all_falsy (fun k hk => by rw [dget_of_not_containsKey (h k hk)]; rfl)]
    rfl
  · intro r ks1 k ks2 h1 h
    rw [extractIntField, orChain_first_truthy ks1 ks2 h1 h]

/-- C7 counterexample: the claim says non-numeric text fails softly to the
default 0; in the code `int('abc')` raises, and the per-record handler then
skips the record entirely — a one-record batch with `likes = "abc"`
processes 0 records and writes nothing, where the claim's soft default
would have processed it with `likes = 0`. -/
theorem claim_C7_cex :
    extractIntField [("likes", .str "abc")] ["likes", "Likes", "likeCount"] = .error () ∧
    (Except.error () : Except Unit Int) ≠ .ok 0 ∧
    process_csv_posts supabaseModel md5id "t"
      [[("likes", .str "abc"), ("postUrl", .str "u")]] emptyDB = (0, emptyDB) :=
  ⟨by decide, by decide, by decide⟩

/-- C7 witness: the two quantified clauses at concrete inputs. -/
theorem claim_C7_witness :
    extractIntField [("x", .int 3)] ["likes", "Likes"] = .ok 0 ∧
    extractIntField [("likes", .str ""), ("Likes", .int 9)] (["likes"] ++ "Likes" :: []) =
      pyToInt (dget [("likes", .str ""), ("Likes", .int 9)] "Likes") :=
  ⟨claim_C7.1 [("x", .int 3)] ["likes", "Likes"] (by decide),
   claim_C7.2.1 [("likes", .str ""), ("Likes", .int 9)] ["likes"] "Likes" [] (by decide)
     (by decide)⟩

lemma toRecord_ofRecord (r : Record) : PyDict.toRecord (PyDict.ofRecord r) = r := by
  induction r with
  | nil => rfl
  | cons p rest ih =>
    obtain ⟨k, v⟩ := p
    show (k, v) :: PyDict.toRecord (PyDict.ofRecord rest) = _
    rw [ih]

/-- C3 amended. Classification checks key PRESENCE, not non-nullness, in the
claimed fixed priority: any record carrying a `companyName` key — even with
a null value, and regardless of which post-like fields are also present — is
classified Company; else a `postId` key (even null) gives Post; else the
record is Unrecognized. In the ingestion loop a Company-classified record
only upserts `company_profile` (posts and metrics untouched) and counts as
processed; a Post-classified record never touches `company_profile`; an
Unrecognized record is skipped: no store change, no count increment. -/
theorem claim_C3 :
    (∀ r : Record, containsKey r "companyName" = true → classifyRecord r = .company) ∧
    (∀ r : Record, containsKey r "companyName" = false → containsKey r "postId" = true →
      classifyRecord r = .post) ∧
    (∀ r : Record, containsKey r "companyName" = false → containsKey r "postId" = false →
      classifyRecord r = .unrecognized) ∧
    (∀ (now : String) (r : Record) (db : DB), containsKey r "companyName" = true →
      jsonItemStep supabaseModel now (.dict (PyDict.ofRecord r)) db =
        ({ db with
            companies := (tblUpsert companyKey db.companies (jsonCompanyRow r now) db.nextId).1,
            nextId := (tblUpsert companyKey db.companies (jsonCompanyRow r now) db.nextId).2.2 },
          1)) ∧
    (∀ (now : String) (r : Record) (db : DB), containsKey r "companyName" = false →
      containsKey r "postId" = true →
      (jsonItemStep supabaseModel now (.dict (PyDict.ofRecord r)) db).1.companies =
        db.companies) ∧
    (∀ (now : String) (r : Record) (db : DB), containsKey r "companyName" = false →
      containsKey r "postId" = false →
      jsonItemStep supabaseModel now (.dict (PyDict.ofRecord r)) db = (db, 0)) := by
  refine ⟨?_, ?_, ?_, ?_, ?_, ?_⟩
  · intro r h
    rw [classifyRecord, if_pos h]
  · intro r h1 h2
    rw [classifyRecord, if_neg (by simp [h1]), if_pos h2]
  · intro r h1 h2
    rw [classifyRecord, if_neg (by simp [h1]), if_neg (by simp [h2])]
  · intro now r db h
    simp only [jsonItemStep, jsonItemStepRaw, toRecord_ofRecord, h, if_true, ite_true]
    rfl
  · intro now r db h1 h2
    simp only [jsonItemStep, jsonItemStepRaw, toRecord_ofRecord, h1, h2, Bool.false_eq_true,
      if_false, ite_false, if_true, ite_true, supabaseModel]
    cases htl : (tblUpsert postKey db.posts (jsonPostRow r) db.nextId).2.1 with
    | nil => simp only [htl]
    | cons id tl =>
      cases hrate : calculate_engagement_rate r with
      | error e => simp only [htl, hrate]
      | ok q => simp only [htl, hrate]
  · intro now r db h1 h2
    simp only [jsonItemStep, jsonItemStepRaw, toRecord_ofRecord, h1, h2, Bool.false_eq_true,
      if_false, ite_false]

/-- C3 counterexample: the record `{"companyName": null, "postId": "p1"}` —
no non-null companyName-equivalent — is classified Post by the claim's rule
but Company by the code (the code tests `'companyName' in item`, which is
true for a null value). -/
theorem claim_C3_cex :
    classifyRecord [("companyName", PyVal.none), ("postId", .str "p1")] = .company ∧
    claimClassify [("companyName", PyVal.none), ("postId", .str "p1")] = .post ∧
    Classification.company ≠ .post :=
  ⟨by decide, by decide, by decide⟩

/-- C3 witness: the amended clauses at concrete records. -/
theorem claim_C3_witness :
    classifyRecord [("companyName", PyVal.none), ("postId", .str "p1")] = .company ∧
    classifyRecord [("postId", .str "p1")] = .post ∧
    classifyRecord [("x", .int 1)] = .unrecognized ∧
    jsonItemStep supabaseModel "t" (.dict (PyDict.ofRecord [("x", .int 1)])) emptyDB =
      (emptyDB, 0) :=
  ⟨claim_C3.1 [("companyName", PyVal.none), ("postId", .str "p1")] (by decide),
   claim_C3.2.1 [("postId", .str "p1")] (by decide) (by decide),
   claim_C3.2.2.1 [("x", .int 1)] (by decide) (by decide),
   claim_C3.2.2.2.2.2 "t" [("x", .int 1)] emptyDB (by decide) (by decide)⟩

/-- C4. The ingestion-step invariant, for ANY persistence collaborator: an
`engagement_metrics` row is created only when the posts upsert of the same
step returned a persisted identity, and its `post_id` is that identity
(the head of the returned data); when the upsert yields no identity the step
returns immediately with the store exactly as the upsert left it — the
metrics operation is never invoked (the step's result does not depend on it)
and nothing is queued or retried. Both the JSON and the CSV step are
covered. -/
theorem claim_C4 :
    (∀ (P : Persist) (now : String) (r : Record) (db db1 : DB),
      containsKey r "companyName" = false → containsKey r "postId" = true →
      P.postsUpsert (jsonPostRow r) db = (db1, .ok []) →
      jsonItemStepRaw P now (.dict (PyDict.ofRecord r)) db = .ok (db1, 0)) ∧
    (∀ (P : Persist) (now : String) (r : Record) (db db1 : DB) (id : Nat) (rest : List Nat)
        (q : ℚ),
      containsKey r "companyName" = false → containsKey r "postId" = true →
      P.postsUpsert (jsonPostRow r) db = (db1, .ok (id :: rest)) →
      calculate_engagement_rate r = .ok q →
      jsonItemStepRaw P now (.dict (PyDict.ofRecord r)) db =
        (match (P.metricsInsert (jsonMetricsRow id r now q) db1).2 with
         | .error _ => .error (P.metricsInsert (jsonMetricsRow id r now q) db1).1
         | .ok _ => .ok ((P.metricsInsert (jsonMetricsRow id r now q) db1).1, 1)) ∧
      (jsonMetricsRow id r now q).post_id = id) ∧
    (∀ (P : Persist) (md5 : String → String) (now : String) (post : Record) (db db1 : DB)
        (row : PostRow) (l c s i : Int),
      csvPostRow md5 post = .ok (row, l, c, s, i) →
      P.postsUpsert row db = (db1, .ok []) →
      csvStepRaw P md5 now post db = .ok (db1, false)) ∧
    (∀ (P : Persist) (md5 : String → String) (now : String) (post : Record) (db db1 : DB)
        (row : PostRow) (l c s i cl : Int) (id : Nat) (rest : List Nat) (q : ℚ),
      csvPostRow md5 post = .ok (row, l, c, s, i) →
      P.postsUpsert row db = (db1, .ok (id :: rest)) →
      extractIntField post ["clicks", "Clicks"] = .ok cl →
      calculate_engagement_rate (csvRateArg l c s i) = .ok q →
      csvStepRaw P md5 now post db =
        (match (P.metricsUpsert (csvMetricsRow id l c s i cl q now) db1).2 with
         | .error _ => .error (P.metricsUpsert (csvMetricsRow id l c s i cl q now) db1).1
         | .ok _ => .ok ((P.metricsUpsert (csvMetricsRow id l c s i cl q now) db1).1, true)) ∧
      (csvMetricsRow id l c s i cl q now).post_id = id) := by
  refine ⟨?_, ?_, ?_, ?_⟩
  · intro P now r db db1 h1 h2 hup
    simp only [jsonItemStepRaw, toRecord_ofRecord, h1, h2, Bool.false_eq_true, if_false,
      ite_false, if_true, ite_true, hup]
  · intro P now r db db1 id rest q h1 h2 hup hq
    refine ⟨?_, rfl⟩
    simp only [jsonItemStepRaw, toRecord_ofRecord, h1, h2, Bool.false_eq_true, if_false,
      ite_false, if_true, ite_true, hup, hq]
  · intro P md5 now post db db1 row l c s i hrow hup
    simp only [csvStepRaw, hrow, hup]
  · intro P md5 now post db db1 row l c s i cl id rest q hrow hup hcl hq
    refine ⟨?_, rfl⟩
    simp only [csvStepRaw, hrow, hup, hcl, hq]

/-- C4 witness: the JSON clauses at a concrete record, once under a
collaborator that returns no identity (metrics skipped) and once under the
store model (metrics row referencing the returned identity 0). -/
theorem claim_C4_witness :
    jsonItemStepRaw emptyDataPersist "t" (.dict (PyDict.ofRecord [("postId", .str "p")]))
      emptyDB = .ok (emptyDB, 0) ∧
    (jsonMetricsRow 0 [("postId", .str "p")] "t" 0).post_id = 0 :=
  ⟨claim_C4.1 emptyDataPersist "t" [("postId", .str "p")] emptyDB emptyDB
      (by decide) (by decide) rfl,
   (claim_C4.2.1 supabaseModel "t" [("postId", .str "p")] emptyDB
      { companies := [], posts := [(0, jsonPostRow [("postId", .str "p")])],
        metrics := [], nextId := 1 } 0 [] 0 (by decide) (by decide) (by decide) (by decide)).2⟩

/-- C1. Per-record failure isolation, for ANY persistence collaborator: when
an iteration of either ingestion loop raises (`.error db2` from the raw
step), the exception is caught and the loop continues with the next record
from the store state the failed iteration left behind, contributing nothing
to the processed count; the loop is total and never reports more processed
records than the batch holds. Concretely, the claimed scenario: a 5-record
CSV batch whose record 3 throws during persistence yields HTTP 200 with
`processed_count = 4` and `total_count = 5`. -/
theorem claim_C1 :
    (∀ (P : Persist) (md5 : String → String) (now : String) (post : Record)
        (rest : List Record) (db db2 : DB),
      csvStepRaw P md5 now post db = .error db2 →
      process_csv_posts P md5 now (post :: rest) db = process_csv_posts P md5 now rest db2) ∧
    (∀ (P : Persist) (now : String) (item : PyVal) (rest : List PyVal) (db db2 : DB),
      jsonItemStepRaw P now item db = .error db2 →
      jsonLoop P now (item :: rest) db = jsonLoop P now rest db2) ∧
    (∀ (P : Persist) (md5 : String → String) (now : String) (posts : List Record) (db : DB),
      (process_csv_posts P md5 now posts db).1 ≤ posts.length) ∧
    (∀ db : DB,
      csvStepRaw faultyAtU3 md5id "t" [("postUrl", .str "u3"), ("likes", .str "1")] db =
        .error db) ∧
    (webhook faultyAtU3 md5id "t" (dlConst csv5) jpFail true
        (some (.dict (.cons "csvUrl" (.str "http://x") .nil))) emptyDB).1 =
      (200, { status := "success", message := "CSV processed", processed_count := some 4
            , total_count := some 5, format := some "CSV" }) := by
  refine ⟨?_, ?_, ?_, fun db => rfl, by decide⟩
  · intro P md5 now post rest db db2 h
    simp only [process_csv_posts, csvStep, h, Bool.false_eq_true, if_false, ite_false,
      Nat.zero_add]
  · intro P now item rest db db2 h
    simp only [jsonLoop, jsonItemStep, h, Nat.zero_add]
  · intro P md5 now posts
    induction posts with
    | nil => intro db; simp [process_csv_posts]
    | cons post rest ih =>
      intro db
      simp only [process_csv_posts, List.length_cons]
      have := ih (csvStep P md5 now post db).1
      split <;> omega

/-- C1 witness: the catch-and-continue clause applied to a one-record batch
whose only record throws during persistence. -/
theorem claim_C1_witness :
    process_csv_posts faultyAtU3 md5id "t"
        [[("postUrl", .str "u3"), ("likes", .str "1")]] emptyDB =
      process_csv_posts faultyAtU3 md5id "t" [] emptyDB ∧
    (process_csv_posts faultyAtU3 md5id "t"
        [[("postUrl", .str "u3"), ("likes", .str "1")]] emptyDB).1 ≤ 1 :=
  ⟨claim_C1.1 faultyAtU3 md5id "t" [("postUrl", .str "u3"), ("likes", .str "1")] [] emptyDB
      emptyDB (claim_C1.2.2.2.1 emptyDB),
   claim_C1.2.2.1 faultyAtU3 md5id "t" [[("postUrl", .str "u3"), ("likes", .str "1")]] emptyDB⟩

lemma containsKey_of_dget_ne {r : Record} {k : String} (h : dget r k ≠ .none) :
    containsKey r k = true := by
  induction r with
  | nil => exact absurd rfl h
  | cons p rest ih =>
    by_cases hk : p.1 = k
    · simp [containsKey, hk]
    · rw [dget, if_neg hk] at h
      simp only [containsKey, List.any_cons, Bool.or_eq_true]
      exact Or.inr (by simpa [containsKey] using ih h)

/-- C6 amended. The webhook's HTTP status by outcome class, for ANY
collaborators: 500 when the persistence client is unavailable; 400 on a
missing or falsy JSON body, on an unrecognizable payload shape, on CSV
download failure or empty download, on an empty CSV decode, and on a
`resultObject` string that fails JSON parsing or parses to a non-list;
200 whenever a decoded batch reaches the record loop — the processed count
reported may be anything, including zero. The one divergence from the claim:
a `resultObject` that is present but NOT a string is an envelope-decode
failure that returns 500, not 400 (`json.loads` raises `TypeError`, which
the `except json.JSONDecodeError` handler does not catch). -/
theorem claim_C6 :
    (∀ (P : Persist) (md5 : String → String) (now : String) (dl : PyVal → Option String)
        (jp : String → Except Unit PyVal) (data : Option PyVal) (db : DB),
      (webhook P md5 now dl jp false data db).1.1 = 500) ∧
    (∀ (P : Persist) (md5 : String → String) (now : String) (dl : PyVal → Option String)
        (jp : String → Except Unit PyVal) (db : DB),
      (webhook P md5 now dl jp true Option.none db).1.1 = 400) ∧
    (∀ (P : Persist) (md5 : String → String) (now : String) (dl : PyVal → Option String)
        (jp : String → Except Unit PyVal) (v : PyVal) (db : DB), truthy v = false →
      (webhook P md5 now dl jp true (some v) db).1.1 = 400) ∧
    (∀ (P : Persist) (md5 : String → String) (now : String) (dl : PyVal → Option String)
        (jp : String → Except Unit PyVal) (dd : PyDict) (db : DB),
      truthy (.dict dd) = true →
      truthy (csvUrlOf (PyDict.toRecord dd)) = false →
      containsKey (PyDict.toRecord dd) "resultObject" = false →
      (webhook P md5 now dl jp true (some (.dict dd)) db).1.1 = 400) ∧
    (∀ (P : Persist) (md5 : String → String) (now : String) (dl : PyVal → Option String)
        (jp : String → Except Unit PyVal) (dd : PyDict) (db : DB),
      truthy (.dict dd) = true →
      truthy (csvUrlOf (PyDict.toRecord dd)) = true →
      (dl (csvUrlOf (PyDict.toRecord dd)) = Option.none ∨
        dl (csvUrlOf (PyDict.toRecord dd)) = some "") →
      (webhook P md5 now dl jp true (some (.dict dd)) db).1.1 = 400) ∧
    (∀ (P : Persist) (md5 : String → String) (now : String) (dl : PyVal → Option String)
        (jp : String → Except Unit PyVal) (dd : PyDict) (db : DB) (content : String),
      truthy (.dict dd) = true →
      truthy (csvUrlOf (PyDict.toRecord dd)) = true →
      dl (csvUrlOf (PyDict.toRecord dd)) = some content → content ≠ "" →
      parse_csv_content content = [] →
      (webhook P md5 now dl jp true (some (.dict dd)) db).1.1 = 400) ∧
    (∀ (P : Persist) (md5 : String → String) (now : String) (dl : PyVal → Option String)
        (jp : String → Except Unit PyVal) (dd : PyDict) (db : DB) (content : String),
      truthy (.dict dd) = true →
      truthy (csvUrlOf (PyDict.toRecord dd)) = true →
      dl (csvUrlOf (PyDict.toRecord dd)) = some content → content ≠ "" →
      parse_csv_content content ≠ [] →
      webhook P md5 now dl jp true (some (.dict dd)) db =
        ((200, { status := "success", message := "CSV processed"
               , processed_count :=
                   some (process_csv_posts P md5 now (parse_csv_content content) db).1
               , total_count := some (parse_csv_content content).length
               , format := some "CSV" }),
         (process_csv_posts P md5 now (parse_csv_content content) db).2)) ∧
    (∀ (P : Persist) (md5 : String → String) (now : String) (dl : PyVal → Option String)
        (jp : String → Except Unit PyVal) (dd : PyDict) (db : DB) (s : String),
      truthy (.dict dd) = true →
      truthy (csvUrlOf (PyDict.toRecord dd)) = false →
      dget (PyDict.toRecord dd) "resultObject" = .str s → jp s = .error () →
      (webhook P md5 now dl jp true (some (.dict dd)) db).1.1 = 400) ∧
    (∀ (P : Persist) (md5 : String → String) (now : String) (dl : PyVal → Option String)
        (jp : String → Except Unit PyVal) (dd : PyDict) (db : DB) (s : String) (w : PyVal),
      truthy (.dict dd) = true →
      truthy (csvUrlOf (PyDict.toRecord dd)) = false →
      dget (PyDict.toRecord dd) "resultObject" = .str s → jp s = .ok w →
      ((∀ items : PyList, w = .list items →
          webhook P md5 now dl jp true (some (.dict dd)) db =
            ((200, { status := "success", message := "JSON processed"
                   , processed_count := some (jsonLoop P now (PyList.toList items) db).1
                   , format := some "JSON" }),
             (jsonLoop P now (PyList.toList items) db).2)) ∧
        (w.isStr = false → (∀ items : PyList, w ≠ .list items) →
          (webhook P md5 now dl jp true (some (.dict dd)) db).1.1 = 400))) ∧
    (∀ (P : Persist) (md5 : String → String) (now : String) (dl : PyVal → Option String)
        (jp : String → Except Unit PyVal) (dd : PyDict) (db : DB),
      truthy (.dict dd) = true →
      truthy (csvUrlOf (PyDict.toRecord dd)) = false →
      containsKey (PyDict.toRecord dd) "resultObject" = true →
      (dget (PyDict.toRecord dd) "resultObject").isStr = false →
      (webhook P md5 now dl jp true (some (.dict dd)) db).1.1 = 500) := by
  refine ⟨fun P md5 now dl jp data db => rfl, fun P md5 now dl jp db => rfl, ?_, ?_, ?_, ?_,
    ?_, ?_, ?_, ?_⟩
  · intro P md5 now dl jp v db hv
    simp only [webhook, Bool.not_true, Bool.false_eq_true, if_false, ite_false, hv,
      Bool.not_false, if_true, ite_true]
  · intro P md5 now dl jp dd db hv hurl hro
    simp only [webhook, hv, hurl, hro, Bool.not_true, Bool.false_eq_true, if_false, ite_false,
      Bool.not_false, if_true, ite_true]
  · intro P md5 now dl jp dd db hv hurl hdl
    rcases hdl with hdl | hdl <;>
      simp only [webhook, hv, hurl, hdl, Bool.not_true, Bool.false_eq_true, if_false,
        ite_false, Bool.not_false, if_true, ite_true]
  · intro P md5 now dl jp dd db content hv hurl hdl hne hparse
    simp only [webhook, hv, hurl, hdl, hne, hparse, Bool.not_true, Bool.false_eq_true,
      if_false, ite_false, Bool.not_false, if_true, ite_true, List.isEmpty_nil]
  · intro P md5 now dl jp dd db content hv hurl hdl hne hparse
    simp only [webhook, hv, hurl, hdl, Bool.not_true, Bool.false_eq_true, if_false, ite_false,
      Bool.not_false, if_true, ite_true, hne, List.isEmpty_eq_true, hparse]
  · intro P md5 now dl jp dd db s hv hurl hro hjp
    have hkey : containsKey (PyDict.toRecord dd) "resultObject" = true :=
      containsKey_of_dget_ne (by rw [hro]; exact fun hx => PyVal.noConfusion hx)
    simp only [webhook, hv, hurl, hro, hjp, hkey, Bool.not_true, Bool.false_eq_true, if_false,
      ite_false, Bool.not_false, if_true, ite_true]
  · intro P md5 now dl jp dd db s w hv hurl hro hjp
    have hkey : containsKey (PyDict.toRecord dd) "resultObject" = true :=
      containsKey_of_dget_ne (by rw [hro]; exact fun hx => PyVal.noConfusion hx)
    constructor
    · intro items hw
      subst hw
      simp only [webhook, hv, hurl, hro, hjp, hkey, Bool.not_true, Bool.false_eq_true,
        if_false, ite_false, Bool.not_false, if_true, ite_true]
    · intro hstr hlist
      simp only [webhook, hv, hurl, hro, hjp, hkey, Bool.not_true, Bool.false_eq_true,
        if_false, ite_false, Bool.not_false, if_true, ite_true]
  · intro P md5 now dl jp dd db hv hurl hro hstr
    simp only [webhook, hv, hurl, hro, Bool.not_true, Bool.false_eq_true, if_false, ite_false,
      Bool.not_false, if_true, ite_true]
    rcases hd : dget (PyDict.toRecord dd) "resultObject" with _ | b | n | s2 | l | d2 <;>
      first
      | (rw [hd] at hstr; simp [PyVal.isStr] at hstr)
      | simp only [hd]

/-- C6 counterexample: the body `{"resultObject": 5}` is an envelope whose
decode fails (`json.loads(5)` raises `TypeError`), so the claim requires
HTTP 400 — but the handler returns 500, because `TypeError` is not caught by
the `except json.JSONDecodeError` clause and falls through to the catch-all. -/
theorem claim_C6_cex :
    (webhook supabaseModel md5id "t" (dlConst "") jpFail true
        (some (.dict (.cons "resultObject" (.int 5) .nil))) emptyDB).1.1 = 500 ∧
    (500 : Nat) ≠ 400 :=
  ⟨by decide, by decide⟩

/-- C6 witness: the 500-on-unavailable clause and the 200-on-empty-batch
clause (zero processed records) at concrete inputs. -/
theorem claim_C6_witness :
    (webhook supabaseModel md5id "t" (dlConst csv5) jpFail false Option.none emptyDB).1.1 =
      500 ∧
    webhook supabaseModel md5id "t" (dlConst csv5) jpEmptyList true
        (some (.dict (.cons "resultObject" (.str "[]") .nil))) emptyDB =
      ((200, { status := "success", message := "JSON processed"
             , processed_count :=
                 some (jsonLoop supabaseModel "t" (PyList.toList .nil) emptyDB).1
             , format := some "JSON" }),
       (jsonLoop supabaseModel "t" (PyList.toList .nil) emptyDB).2) :=
  ⟨claim_C6.1 supabaseModel md5id "t" (dlConst csv5) jpFail Option.none emptyDB,
   (claim_C6.2.2.2.2.2.2.2.2.1 supabaseModel md5id "t" (dlConst csv5) jpEmptyList
      (.cons "resultObject" (.str "[]") .nil) emptyDB "[]" (.list .nil)
      (by decide) (by decide) rfl rfl).1 .nil rfl⟩

lemma csvStep_companies (md5 : String → String) (now : String) (post : Record) (db : DB) :
    (csvStep supabaseModel md5 now post db).1.companies = db.companies := by
  simp only [csvStep, csvStepRaw, supabaseModel]
  cases hrow : csvPostRow md5 post with
  | error e => rfl
  | ok t =>
    obtain ⟨row, l, c, s, i⟩ := t
    simp only []
    cases htl : (tblUpsert postKey db.posts row db.nextId).2.1 with
    | nil => rfl
    | cons id tl =>
      cases hcl : extractIntField post ["clicks", "Clicks"] with
      | error e => rfl
      | ok cl =>
        cases hq : calculate_engagement_rate (csvRateArg l c s i) with
        | error e => rfl
        | ok q => rfl

/-- C10. CSV-decoded records are always ingested as posts, never as company
profiles: the CSV loop's outcome does not depend on the company-upsert
operation at all (replacing it by anything leaves the result unchanged), the
`company_profile` table is untouched by any CSV batch, and a record carrying
a `companyName` field is still written to the posts table with a metrics
snapshot. -/
theorem claim_C10 :
    (∀ (P : Persist) (co : CompanyRow → DB → DB × Except Unit Unit)
        (md5 : String → String) (now : String) (posts : List Record) (db : DB),
      process_csv_posts { P with companyUpsert := co } md5 now posts db =
        process_csv_posts P md5 now posts db) ∧
    (∀ (md5 : String → String) (now : String) (posts : List Record) (db : DB),
      (process_csv_posts supabaseModel md5 now posts db).2.companies = db.companies) ∧
    (process_csv_posts supabaseModel md5id "t"
        [[("companyName", .str "Acme"), ("postUrl", .str "u")]] emptyDB).1 = 1 ∧
    (process_csv_posts supabaseModel md5id "t"
        [[("companyName", .str "Acme"), ("postUrl", .str "u")]] emptyDB).2.posts.length = 1 ∧
    (process_csv_posts supabaseModel md5id "t"
        [[("companyName", .str "Acme"), ("postUrl", .str "u")]] emptyDB).2.metrics.length = 1 ∧
    (process_csv_posts supabaseModel md5id "t"
        [[("companyName", .str "Acme"), ("postUrl", .str "u")]] emptyDB).2.companies = [] := by
  refine ⟨?_, ?_, by decide, by decide, by decide, by decide⟩
  · intro P co md5 now posts
    induction posts with
    | nil => intro db; rfl
    | cons post rest ih =>
      intro db
      simp only [process_csv_posts]
      rw [show csvStep { P with companyUpsert := co } md5 now post db =
            csvStep P md5 now post db from rfl,
        ih (csvStep P md5 now post db).1]
  · intro md5 now posts
    induction posts with
    | nil => intro db; rfl
    | cons post rest ih =>
      intro db
      simp only [process_csv_posts]
      rw [ih (csvStep supabaseModel md5 now post db).1, csvStep_companies]

/-! ### Generic laws of `tblUpsert` and upsert replay -/

section TableLaws

variable {α : Type} (key : α → PyVal)

lemma key_replOne (x : α) (p : Nat × α) : key ((replOne key x p).2) = key p.2 := by
  unfold replOne
  split
  · next h => exact h.symm
  · rfl

lemma tblUpsert_any_true {rows : List (Nat × α)} {x : α}
    (h : ∃ p ∈ rows, key p.2 = key x) :
    rows.any (fun p => key p.2 == key x) = true := by
  obtain ⟨p, hp, hk⟩ := h
  exact List.any_eq_true.mpr ⟨p, hp, beq_iff_eq.mpr hk⟩

lemma tblUpsert_replace {rows : List (Nat × α)} {x : α} {f : Nat}
    (h : ∃ p ∈ rows, key p.2 = key x) :
    (tblUpsert key rows x f).1 = rows.map (replOne key x) ∧
      (tblUpsert key rows x f).2.2 = f := by
  rw [tblUpsert, if_pos (tblUpsert_any_true key h)]
  exact ⟨rfl, rfl⟩

lemma tblUpsert_ids_ne (rows : List (Nat × α)) (x : α) (f : Nat) :
    (tblUpsert key rows x f).2.1 ≠ [] := by
  unfold tblUpsert
  split
  · next h =>
    obtain ⟨p, hp, hk⟩ := List.any_eq_true.mp h
    intro hnil
    have := List.filterMap_eq_nil_iff.mp hnil p hp
    rw [if_pos (beq_iff_eq.mp hk)] at this
    exact Option.noConfusion this
  · simp

lemma tblUpsert_mem_key (rows : List (Nat × α)) (x : α) (f : Nat) :
    ∃ p ∈ (tblUpsert key rows x f).1, key p.2 = key x := by
  unfold tblUpsert
  split
  · next h =>
    obtain ⟨p, hp, hk⟩ := List.any_eq_true.mp h
    refine ⟨(p.1, x), List.mem_map.mpr ⟨p, hp, ?_⟩, rfl⟩
    rw [if_pos (beq_iff_eq.mp hk)]
  · exact ⟨(f, x), by simp, rfl⟩

lemma tblUpsert_pres {rows : List (Nat × α)} {k : PyVal}
    (h : ∃ p ∈ rows, key p.2 = k) (y : α) (f : Nat) :
    ∃ p ∈ (tblUpsert key rows y f).1, key p.2 = k := by
  obtain ⟨p, hp, hk⟩ := h
  unfold tblUpsert
  split
  · exact ⟨replOne key y p, List.mem_map.mpr ⟨p, hp, rfl⟩, by rw [key_replOne key]; exact hk⟩
  · exact ⟨p, by simp [hp], hk⟩

lemma mem_key_map_replOne {rows : List (Nat × α)} {k : PyVal}
    (h : ∃ p ∈ rows, key p.2 = k) (x : α) :
    ∃ p ∈ rows.map (replOne key x), key p.2 = k := by
  obtain ⟨p, hp, hk⟩ := h
  exact ⟨replOne key x p, List.mem_map.mpr ⟨p, hp, rfl⟩, by rw [key_replOne key]; exact hk⟩

lemma tblUpsert_payload {rows : List (Nat × α)} {x : α} {f : Nat} {p : Nat × α}
    (hp : p ∈ (tblUpsert key rows x f).1) (hk : key p.2 = key x) : p.2 = x := by
  unfold tblUpsert at hp
  split at hp
  · obtain ⟨q, hq, hqe⟩ := List.mem_map.mp hp
    by_cases hqk : key q.2 = key x
    · rw [if_pos hqk] at hqe
      rw [← hqe]
    · rw [if_neg hqk] at hqe
      rw [← hqe] at hk
      exact absurd hk hqk
  · next h =>
    rcases List.mem_append.mp hp with hin | hone
    · exact absurd
        (show rows.any (fun p => key p.2 == key x) = true from
          List.any_eq_true.mpr ⟨p, hin, beq_iff_eq.mpr hk⟩) h
    · rw [List.mem_singleton.mp hone]

lemma tblUpsert_untouched {rows : List (Nat × α)} {x : α} {f : Nat} {p : Nat × α}
    (hk : key p.2 ≠ key x) : p ∈ (tblUpsert key rows x f).1 ↔ p ∈ rows := by
  unfold tblUpsert
  split
  · constructor
    · intro hp
      obtain ⟨q, hq, hqe⟩ := List.mem_map.mp hp
      by_cases hqk : key q.2 = key x
      · rw [if_pos hqk] at hqe
        exact absurd (by rw [← hqe]) hk
      · rw [if_neg hqk] at hqe
        rw [← hqe]
        exact hq
    · intro hp
      exact List.mem_map.mpr ⟨p, hp, if_neg hk⟩
  · constructor
    · intro hp
      rcases List.mem_append.mp hp with h | h
      · exact h
      · exact absurd (by rw [List.mem_singleton.mp h]) hk
    · intro hp
      exact List.mem_append.mpr (Or.inl hp)

lemma lastWrite_none {k : PyVal} {ws : List α} (h : lastWrite key k ws = Option.none) :
    ∀ z ∈ ws, key z ≠ k := by
  induction ws with
  | nil => intro z hz; exact absurd hz (List.not_mem_nil z)
  | cons x ws ih =>
    intro z hz
    rw [lastWrite] at h
    cases hlw : lastWrite key k ws with
    | some y => rw [hlw] at h; exact Option.noConfusion h
    | none =>
      rw [hlw] at h
      rcases List.mem_cons.mp hz with rfl | hz2
      · intro hkz
        rw [if_pos hkz] at h
        exact Option.noConfusion h
      · exact ih hlw z hz2

lemma finalRepl_cons (x : α) (ws : List α) (p : Nat × α) :
    finalRepl key (x :: ws) p = finalRepl key ws (replOne key x p) := by
  by_cases hk : key p.2 = key x
  · unfold finalRepl replOne
    rw [if_pos hk]
    show (match lastWrite key (key p.2) (x :: ws) with
          | some y => (p.1, y)
          | Option.none => p) =
        (match lastWrite key (key ((p.1, x) : Nat × α).2) ws with
          | some y => (p.1, y)
          | Option.none => (p.1, x))
    have hxx : key ((p.1, x) : Nat × α).2 = key p.2 := hk.symm
    rw [hxx, lastWrite]
    cases hlw : lastWrite key (key p.2) ws with
    | some y => simp [hlw]
    | none => simp [hlw, if_pos hk.symm]
  · unfold finalRepl replOne
    rw [if_neg hk, lastWrite]
    cases hlw : lastWrite key (key p.2) ws with
    | some y => simp [hlw]
    | none =>
      simp only [hlw]
      rw [if_neg (fun he => hk he.symm)]

end TableLaws

section ReplayLaws

variable {α : Type} (key : α → PyVal)

lemma applyUpserts_pres {k : PyVal} (ws : List α) :
    ∀ (rows : List (Nat × α)) (f : Nat), (∃ p ∈ rows, key p.2 = k) →
      ∃ p ∈ (applyUpserts key ws rows f).1, key p.2 = k := by
  induction ws with
  | nil => intro rows f h; exact h
  | cons x ws ih =>
    intro rows f h
    exact ih _ _ (tblUpsert_pres key h x f)

lemma applyUpserts_writes_present (ws : List α) :
    ∀ (rows : List (Nat × α)) (f : Nat) (x : α), x ∈ ws →
      ∃ p ∈ (applyUpserts key ws rows f).1, key p.2 = key x := by
  induction ws with
  | nil => intro rows f x hx; exact absurd hx (List.not_mem_nil x)
  | cons y ws ih =>
    intro rows f x hx
    rcases List.mem_cons.mp hx with rfl | hx2
    · exact applyUpserts_pres key ws _ _ (tblUpsert_mem_key key rows x f)
    · exact ih _ _ x hx2

lemma finalRepl_nil (p : Nat × α) : finalRepl key [] p = p := rfl

lemma applyUpserts_all_replace (ws : List α) :
    ∀ (rows : List (Nat × α)) (f : Nat),
      (∀ x ∈ ws, ∃ p ∈ rows, key p.2 = key x) →
      applyUpserts key ws rows f = (rows.map (finalRepl key ws), f) := by
  induction ws with
  | nil =>
    intro rows f _
    show (rows, f) = _
    rw [show rows.map (finalRepl key []) = rows.map id from
        List.map_congr_left (fun p _ => finalRepl_nil key p), List.map_id]
  | cons x ws ih =>
    intro rows f h
    rw [applyUpserts]
    obtain ⟨h1, h2⟩ := tblUpsert_replace key (h x (by simp))
    rw [h1, h2, ih (rows.map (replOne key x)) f
      (fun z hz => mem_key_map_replOne key (h z (by simp [hz])) x), List.map_map]
    refine congrArg (fun l => (l, f)) (List.map_congr_left (fun p _ => ?_))
    show finalRepl key ws (replOne key x p) = finalRepl key (x :: ws) p
    exact (finalRepl_cons key x ws p).symm

lemma applyUpserts_untouched (ws : List α) :
    ∀ (rows : List (Nat × α)) (f : Nat) (p : Nat × α),
      (∀ x ∈ ws, key x ≠ key p.2) →
      (p ∈ (applyUpserts key ws rows f).1 ↔ p ∈ rows) := by
  induction ws with
  | nil => intro rows f p _; exact Iff.rfl
  | cons x ws ih =>
    intro rows f p h
    rw [applyUpserts, ih _ _ p (fun z hz => h z (by simp [hz]))]
    exact tblUpsert_untouched key (fun he => h x (by simp) he.symm)

lemma applyUpserts_lastWrite (ws : List α) :
    ∀ (rows : List (Nat × α)) (f : Nat) (p : Nat × α) (y : α),
      p ∈ (applyUpserts key ws rows f).1 →
      lastWrite key (key p.2) ws = some y → p.2 = y := by
  induction ws with
  | nil => intro rows f p y _ h; exact Option.noConfusion h
  | cons x ws ih =>
    intro rows f p y hp hlw
    rw [applyUpserts] at hp
    rw [lastWrite] at hlw
    cases hlw2 : lastWrite key (key p.2) ws with
    | some z =>
      rw [hlw2] at hlw
      cases hlw
      exact ih _ _ p y hp hlw2
    | none =>
      rw [hlw2] at hlw
      by_cases hkx : key x = key p.2
      · rw [if_pos hkx] at hlw
        cases hlw
        have hmem := (applyUpserts_untouched key ws _ _ p (lastWrite_none key hlw2)).mp hp
        exact tblUpsert_payload key hmem hkx.symm
      · rw [if_neg hkx] at hlw
        exact Option.noConfusion hlw

lemma applyUpserts_absorb (ws : List α) (rows : List (Nat × α)) (f : Nat) :
    applyUpserts key ws (applyUpserts key ws rows f).1 (applyUpserts key ws rows f).2 =
      applyUpserts key ws rows f := by
  rw [applyUpserts_all_replace key ws _ _
    (fun x hx => applyUpserts_writes_present key ws rows f x hx)]
  have hmap : (applyUpserts key ws rows f).1.map (finalRepl key ws) =
      (applyUpserts key ws rows f).1 := by
    rw [show (applyUpserts key ws rows f).1.map (finalRepl key ws) =
        (applyUpserts key ws rows f).1.map id from
      List.map_congr_left (fun p hp => ?_), List.map_id]
    unfold finalRepl
    cases hlw : lastWrite key (key p.2) ws with
    | some y =>
      simp only [hlw]
      rw [← applyUpserts_lastWrite key ws rows f p y hp hlw]
      simp
    | none => simp only [hlw, id]
  rw [hmap]

end ReplayLaws

lemma csvRate_ok (l c s i : ℤ) :
    ∃ q, calculate_engagement_rate (csvRateArg l c s i) = .ok q := by
  by_cases hi : i = 0
  · subst hi
    exact ⟨_, rfl⟩
  · have ht : truthy (.int i) = true := by
      simp only [truthy, bne_iff_ne, ne_eq]
      exact hi
    have h1 : calculate_engagement_rate (csvRateArg l c s i) =
        (pyDivQ (.int (l + c + s + 0)) (pyOr (.int i) (.int 1))).map
          (fun q => round2 (qmul q (Rat.divInt 100 1))) := rfl
    refine ⟨round2 (qmul (Rat.divInt (l + c + s + 0) i) (Rat.divInt 100 1)), ?_⟩
    rw [h1, pyOr_truthy ht]
    simp [pyDivQ, pyNum?, hi, Except.map]

lemma csvStep_model_err {md5 : String → String} {now : String} {post : Record} {db : DB}
    {e : Unit} (h : csvPostRow md5 post = .error e) :
    csvStep supabaseModel md5 now post db = (db, false) := by
  simp only [csvStep, csvStepRaw, h]

lemma csvStep_model_ok {md5 : String → String} {now : String} {post : Record} {db : DB}
    {row : PostRow} {l c s i : ℤ} (h : csvPostRow md5 post = .ok (row, l, c, s, i)) :
    (csvStep supabaseModel md5 now post db).1.posts =
      (tblUpsert postKey db.posts row db.nextId).1 ∧
    (csvStep supabaseModel md5 now post db).1.nextId =
      (tblUpsert postKey db.posts row db.nextId).2.2 ∧
    (csvStep supabaseModel md5 now post db).1.companies = db.companies ∧
    (csvStep supabaseModel md5 now post db).1.metrics.length =
      db.metrics.length +
        (if ((extractIntField post ["clicks", "Clicks"]).toOption).isSome then 1 else 0) ∧
    ((csvStep supabaseModel md5 now post db).2 =
      ((extractIntField post ["clicks", "Clicks"]).toOption).isSome) := by
  obtain ⟨id, tl, hids⟩ :=
    List.exists_cons_of_ne_nil (tblUpsert_ids_ne postKey db.posts row db.nextId)
  cases hcl : extractIntField post ["clicks", "Clicks"] with
  | error e =>
    simp only [csvStep, csvStepRaw, h, supabaseModel, hids, hcl, Option.isSome,
      Except.toOption]
    simp
  | ok cl =>
    obtain ⟨q, hq⟩ := csvRate_ok l c s i
    simp only [csvStep, csvStepRaw, h, supabaseModel, hids, hcl, hq, Option.isSome,
      Except.toOption]
    simp

lemma csv_loop_model (md5 : String → String) (now : String) :
    ∀ (posts : List Record) (db : DB),
      (process_csv_posts supabaseModel md5 now posts db).1 =
        (posts.filter (csvOkB md5)).length ∧
      (process_csv_posts supabaseModel md5 now posts db).2.companies = db.companies ∧
      (process_csv_posts supabaseModel md5 now posts db).2.metrics.length =
        db.metrics.length + (process_csv_posts supabaseModel md5 now posts db).1 ∧
      ((process_csv_posts supabaseModel md5 now posts db).2.posts,
        (process_csv_posts supabaseModel md5 now posts db).2.nextId) =
        applyUpserts postKey (csvWrites md5 posts) db.posts db.nextId := by
  intro posts
  induction posts with
  | nil => intro db; exact ⟨rfl, rfl, by simp [process_csv_posts], rfl⟩
  | cons post rest ih =>
    intro db
    cases hrow : csvPostRow md5 post with
    | error e =>
      have hstep : csvStep supabaseModel md5 now post db = (db, false) := csvStep_model_err hrow
      have hok : csvOkB md5 post = false := by
        simp [csvOkB, hrow, Except.toOption]
      have hw : csvWrites md5 (post :: rest) = csvWrites md5 rest := by
        simp [csvWrites, hrow, Except.toOption]
      obtain ⟨i1, i2, i3, i4⟩ := ih db
      refine ⟨?_, ?_, ?_, ?_⟩
      · simp only [process_csv_posts, hstep, Bool.false_eq_true, if_false, ite_false,
          Nat.zero_add, List.filter_cons, hok]
        exact i1
      · simp only [process_csv_posts, hstep]
        exact i2
      · simp only [process_csv_posts, hstep, Bool.false_eq_true, if_false, ite_false,
          Nat.zero_add]
        exact i3
      · simp only [process_csv_posts, hstep, hw]
        exact i4
    | ok t =>
      obtain ⟨row, l, c, s, i⟩ := t
      obtain ⟨m1, m2, m3, m4, m5⟩ :=
        @csvStep_model_ok md5 now post db row l c s i hrow
      have hok : csvOkB md5 post = ((extractIntField post ["clicks", "Clicks"]).toOption).isSome := by
        simp [csvOkB, hrow, Except.toOption]
      have hw : csvWrites md5 (post :: rest) = row :: csvWrites md5 rest := by
        simp [csvWrites, hrow, Except.toOption]
      obtain ⟨i1, i2, i3, i4⟩ := ih (csvStep supabaseModel md5 now post db).1
      refine ⟨?_, ?_, ?_, ?_⟩
      · simp only [process_csv_posts, i1, List.filter_cons, hok, m5]
        cases hcl : ((extractIntField post ["clicks", "Clicks"]).toOption).isSome with
        | false => simp [hcl]
        | true => simp only [hcl, if_true, ite_true, List.length_cons]; omega
      · simp only [process_csv_posts, i2, m3]
      · simp only [process_csv_posts, i3, m4, m5, i1]
        cases hcl : ((extractIntField post ["clicks", "Clicks"]).toOption).isSome <;> omega
      · simp only [process_csv_posts, hw, applyUpserts, i4, m1, m2]

lemma jsonStep_company {now : String} {dd : PyDict} {db : DB}
    (h : containsKey dd.toRecord "companyName" = true) :
    jsonItemStep supabaseModel now (.dict dd) db =
      ({ db with
          companies :=
            (tblUpsert companyKey db.companies (jsonCompanyRow dd.toRecord now) db.nextId).1,
          nextId :=
            (tblUpsert companyKey db.companies (jsonCompanyRow dd.toRecord now) db.nextId).2.2 },
        1) := by
  simp only [jsonItemStep, jsonItemStepRaw, h, if_true, ite_true, supabaseModel]

lemma jsonStep_post {now : String} {dd : PyDict} {db : DB}
    (h1 : containsKey dd.toRecord "companyName" = false)
    (h2 : containsKey dd.toRecord "postId" = true) :
    (jsonItemStep supabaseModel now (.dict dd) db).1.posts =
      (tblUpsert postKey db.posts (jsonPostRow dd.toRecord) db.nextId).1 ∧
    (jsonItemStep supabaseModel now (.dict dd) db).1.nextId =
      (tblUpsert postKey db.posts (jsonPostRow dd.toRecord) db.nextId).2.2 ∧
    (jsonItemStep supabaseModel now (.dict dd) db).1.companies = db.companies ∧
    (jsonItemStep supabaseModel now (.dict dd) db).1.metrics.length =
      db.metrics.length +
        (if ((calculate_engagement_rate dd.toRecord).toOption).isSome then 1 else 0) ∧
    (jsonItemStep supabaseModel now (.dict dd) db).2 =
      (if ((calculate_engagement_rate dd.toRecord).toOption).isSome then 1 else 0) := by
  obtain ⟨id, tl, hids⟩ := List.exists_cons_of_ne_nil
    (tblUpsert_ids_ne postKey db.posts (jsonPostRow dd.toRecord) db.nextId)
  cases hq : calculate_engagement_rate dd.toRecord with
  | error e =>
    simp only [jsonItemStep, jsonItemStepRaw, h1, h2, Bool.false_eq_true, if_false, ite_false,
      if_true, ite_true, supabaseModel, hids, hq, Except.toOption, Option.isSome]
    simp
  | ok q =>
    simp only [jsonItemStep, jsonItemStepRaw, h1, h2, Bool.false_eq_true, if_false, ite_false,
      if_true, ite_true, supabaseModel, hids, hq, Except.toOption, Option.isSome]
    simp

lemma jsonStep_unknown {P : Persist} {now : String} {dd : PyDict} {db : DB}
    (h1 : containsKey dd.toRecord "companyName" = false)
    (h2 : containsKey dd.toRecord "postId" = false) :
    jsonItemStep P now (.dict dd) db = (db, 0) := by
  simp only [jsonItemStep, jsonItemStepRaw, h1, h2, Bool.false_eq_true, if_false, ite_false]

lemma jsonStep_nondict {P : Persist} {now : String} {item : PyVal} {db : DB}
    (h : ∀ dd : PyDict, item ≠ .dict dd) :
    jsonItemStep P now item db = (db, 0) := by
  cases item with
  | dict dd => exact absurd rfl (h dd)
  | str s =>
    by_cases hc1 : strContains s "companyName"
    · simp [jsonItemStep, jsonItemStepRaw, hc1]
    · by_cases hc2 : strContains s "postId"
      · simp [jsonItemStep, jsonItemStepRaw, hc1, hc2]
      · simp [jsonItemStep, jsonItemStepRaw, hc1, hc2]
  | list l =>
    by_cases hc1 : (PyList.toList l).any (fun v => v == .str "companyName")
    · simp [jsonItemStep, jsonItemStepRaw, hc1]
    · by_cases hc2 : (PyList.toList l).any (fun v => v == .str "postId")
      · simp [jsonItemStep, jsonItemStepRaw, hc1, hc2]
      · simp [jsonItemStep, jsonItemStepRaw, hc1, hc2]
  | none => rfl
  | bool b => rfl
  | int n => rfl

lemma jsonLoop_cons (P : Persist) (now : String) (item : PyVal) (rest : List PyVal)
    (db : DB) :
    jsonLoop P now (item :: rest) db =
      ((jsonItemStep P now item db).2 +
          (jsonLoop P now rest (jsonItemStep P now item db).1).1,
        (jsonLoop P now rest (jsonItemStep P now item db).1).2) := rfl

lemma json_facts_skip {now : String} {item : PyVal} {rest : List PyVal} {db : DB}
    (hstep : jsonItemStep supabaseModel now item db = (db, 0))
    (hcw : jsonCompanyWrites now (item :: rest) = jsonCompanyWrites now rest)
    (hpw : jsonPostWrites (item :: rest) = jsonPostWrites rest)
    (hproc : jsonProcW item = 0) (hmet : jsonMetricsW item = 0)
    (IH : JsonRunFacts now rest db) : JsonRunFacts now (item :: rest) db := by
  have hL : jsonLoop supabaseModel now (item :: rest) db =
      jsonLoop supabaseModel now rest db := by
    rw [jsonLoop_cons, hstep]
    simp
  constructor
  · rw [hL, IH.count]
    simp [hproc]
  · rw [hL, IH.metrics]
    simp [hmet]
  · rw [hcw, hL]
    exact IH.cpresent
  · rw [hpw, hL]
    exact IH.ppresent
  · intro k hk
    rw [hL]
    exact IH.cpres k hk
  · intro k hk
    rw [hL]
    exact IH.ppres k hk
  · intro p hp
    rw [hcw] at hp
    rw [hL, IH.cuntouched p hp]
  · intro p hp
    rw [hpw] at hp
    rw [hL, IH.puntouched p hp]
  · intro p hp y hy
    rw [hL] at hp
    rw [hcw] at hy
    exact IH.clast p hp y hy
  · intro p hp y hy
    rw [hL] at hp
    rw [hpw] at hy
    exact IH.plast p hp y hy

lemma json_facts_company {now : String} {dd : PyDict} {rest : List PyVal} {db : DB}
    (h1 : containsKey dd.toRecord "companyName" = true)
    (IH : JsonRunFacts now rest
      ({ db with
          companies :=
            (tblUpsert companyKey db.companies (jsonCompanyRow dd.toRecord now) db.nextId).1,
          nextId :=
            (tblUpsert companyKey db.companies (jsonCompanyRow dd.toRecord now)
              db.nextId).2.2 })) :
    JsonRunFacts now (.dict dd :: rest) db := by
  set cRow := jsonCompanyRow dd.toRecord now with hcRow
  set T := tblUpsert companyKey db.companies cRow db.nextId with hT
  set db1 : DB := { db with companies := T.1, nextId := T.2.2 } with hdb1
  have hstep : jsonItemStep supabaseModel now (.dict dd) db = (db1, 1) := jsonStep_company h1
  have hL1 : (jsonLoop supabaseModel now (.dict dd :: rest) db).1 =
      1 + (jsonLoop supabaseModel now rest db1).1 := by
    rw [jsonLoop_cons, hstep]
  have hL2 : (jsonLoop supabaseModel now (.dict dd :: rest) db).2 =
      (jsonLoop supabaseModel now rest db1).2 := by
    rw [jsonLoop_cons, hstep]
  have hcw : jsonCompanyWrites now (.dict dd :: rest) = cRow :: jsonCompanyWrites now rest := by
    simp [jsonCompanyWrites, h1, hcRow]
  have hpw : jsonPostWrites (.dict dd :: rest) = jsonPostWrites rest := by
    simp [jsonPostWrites, h1]
  constructor
  · rw [hL1, IH.count]
    simp [jsonProcW, h1]
  · rw [hL2, IH.metrics]
    show db1.metrics.length + _ = _
    simp [hdb1, jsonMetricsW, h1]
  · rw [hcw, hL2]
    intro x hx
    rcases List.mem_cons.mp hx with rfl | hx2
    · exact IH.cpres (companyKey cRow) (tblUpsert_mem_key companyKey db.companies cRow db.nextId)
    · exact IH.cpresent x hx2
  · rw [hpw, hL2]
    exact IH.ppresent
  · intro k hk
    rw [hL2]
    exact IH.cpres k (tblUpsert_pres companyKey hk cRow db.nextId)
  · intro k hk
    rw [hL2]
    exact IH.ppres k hk
  · intro p hp
    rw [hcw] at hp
    rw [hL2, IH.cuntouched p (fun x hx => hp x (by simp [hx]))]
    show p ∈ T.1 ↔ _
    exact tblUpsert_untouched companyKey (fun he => hp cRow (by simp) he.symm)
  · intro p hp
    rw [hpw] at hp
    rw [hL2, IH.puntouched p hp]
  · intro p hp y hy
    rw [hL2] at hp
    rw [hcw, lastWrite] at hy
    cases hlw : lastWrite companyKey (companyKey p.2) (jsonCompanyWrites now rest) with
    | some z =>
      rw [hlw] at hy
      cases hy
      exact IH.clast p hp y hlw
    | none =>
      rw [hlw] at hy
      by_cases hkx : companyKey cRow = companyKey p.2
      · rw [if_pos hkx] at hy
        cases hy
        have hmem : p ∈ db1.companies :=
          (IH.cuntouched p (lastWrite_none companyKey hlw)).mp hp
        exact tblUpsert_payload companyKey hmem hkx.symm
      · rw [if_neg hkx] at hy
        exact Option.noConfusion hy
  · intro p hp y hy
    rw [hL2] at hp
    rw [hpw] at hy
    exact IH.plast p hp y hy

lemma json_facts_post {now : String} {dd : PyDict} {rest : List PyVal} {db : DB}
    (h1 : containsKey dd.toRecord "companyName" = false)
    (h2 : containsKey dd.toRecord "postId" = true)
    (IH : JsonRunFacts now rest (jsonItemStep supabaseModel now (.dict dd) db).1) :
    JsonRunFacts now (.dict dd :: rest) db := by
  obtain ⟨m1, m2, m3, m4, m5⟩ := @jsonStep_post now dd db h1 h2
  set pRow := jsonPostRow dd.toRecord with hpRow
  set db1 := (jsonItemStep supabaseModel now (.dict dd) db).1 with hdb1
  have hL1 : (jsonLoop supabaseModel now (.dict dd :: rest) db).1 =
      (jsonItemStep supabaseModel now (.dict dd) db).2 +
        (jsonLoop supabaseModel now rest db1).1 := rfl
  have hL2 : (jsonLoop supabaseModel now (.dict dd :: rest) db).2 =
      (jsonLoop supabaseModel now rest db1).2 := rfl
  have hcw : jsonCompanyWrites now (.dict dd :: rest) = jsonCompanyWrites now rest := by
    simp [jsonCompanyWrites, h1]
  have hpw : jsonPostWrites (.dict dd :: rest) = pRow :: jsonPostWrites rest := by
    simp [jsonPostWrites, h1, h2, hpRow]
  constructor
  · rw [hL1, IH.count, m5]
    simp [jsonProcW, h1, h2]
  · rw [hL2, IH.metrics, m4]
    have : jsonMetricsW (.dict dd) =
        (if ((calculate_engagement_rate dd.toRecord).toOption).isSome then 1 else 0) := by
      simp [jsonMetricsW, h1, h2]
    simp only [List.map_cons, List.sum_cons, this]
    omega
  · rw [hcw, hL2]
    exact IH.cpresent
  · rw [hpw, hL2]
    intro x hx
    rcases List.mem_cons.mp hx with rfl | hx2
    · refine IH.ppres (postKey pRow) ?_
      rw [m1]
      exact tblUpsert_mem_key postKey db.posts pRow db.nextId
    · exact IH.ppresent x hx2
  · intro k hk
    rw [hL2]
    refine IH.cpres k ?_
    rw [m3]
    exact hk
  · intro k hk
    rw [hL2]
    refine IH.ppres k ?_
    rw [m1]
    exact tblUpsert_pres postKey hk pRow db.nextId
  · intro p hp
    rw [hcw] at hp
    rw [hL2, IH.cuntouched p hp, m3]
  · intro p hp
    rw [hpw] at hp
    rw [hL2, IH.puntouched p (fun x hx => hp x (by simp [hx])), m1]
    exact tblUpsert_untouched postKey (fun he => hp pRow (by simp) he.symm)
  · intro p hp y hy
    rw [hL2] at hp
    rw [hcw] at hy
    exact IH.clast p hp y hy
  · intro p hp y hy
    rw [hL2] at hp
    rw [hpw, lastWrite] at hy
    cases hlw : lastWrite postKey (postKey p.2) (jsonPostWrites rest) with
    | some z =>
      rw [hlw] at hy
      cases hy
      exact IH.plast p hp y hlw
    | none =>
      rw [hlw] at hy
      by_cases hkx : postKey pRow = postKey p.2
      · rw [if_pos hkx] at hy
        cases hy
        have hmem : p ∈ db1.posts := (IH.puntouched p (lastWrite_none postKey hlw)).mp hp
        rw [m1] at hmem
        exact tblUpsert_payload postKey hmem hkx.symm
      · rw [if_neg hkx] at hy
        exact Option.noConfusion hy

lemma json_loop_model (now : String) :
    ∀ (items : List PyVal) (db : DB), JsonRunFacts now items db := by
  intro items
  induction items with
  | nil =>
    intro db
    refine ⟨rfl, by simp [jsonLoop], ?_, ?_, ?_, ?_, ?_, ?_, ?_, ?_⟩
    · intro x hx
      exact absurd hx (by simp [jsonCompanyWrites])
    · intro x hx
      exact absurd hx (by simp [jsonPostWrites])
    · intro k hk
      exact hk
    · intro k hk
      exact hk
    · intro p _
      exact Iff.rfl
    · intro p _
      exact Iff.rfl
    · intro p _ y hy
      exact Option.noConfusion hy
    · intro p _ y hy
      exact Option.noConfusion hy
  | cons item rest ih =>
    intro db
    cases item with
    | dict dd =>
      by_cases h1 : containsKey dd.toRecord "companyName"
      · exact json_facts_company h1 (ih _)
      · have h1f : containsKey dd.toRecord "companyName" = false := by
          simpa using h1
        by_cases h2 : containsKey dd.toRecord "postId"
        · exact json_facts_post h1f h2 (ih _)
        · have h2f : containsKey dd.toRecord "postId" = false := by
            simpa using h2
          exact json_facts_skip (jsonStep_unknown h1f h2f)
            (by simp [jsonCompanyWrites, h1f]) (by simp [jsonPostWrites, h1f, h2f])
            (by simp [jsonProcW, h1f, h2f]) (by simp [jsonMetricsW, h1f, h2f]) (ih db)
    | none =>
      exact json_facts_skip (jsonStep_nondict (fun dd h => PyVal.noConfusion h))
        (by simp [jsonCompanyWrites]) (by simp [jsonPostWrites])
        (by simp [jsonProcW]) (by simp [jsonMetricsW]) (ih db)
    | bool b =>
      exact json_facts_skip (jsonStep_nondict (fun dd h => PyVal.noConfusion h))
        (by simp [jsonCompanyWrites]) (by simp [jsonPostWrites])
        (by simp [jsonProcW]) (by simp [jsonMetricsW]) (ih db)
    | int n =>
      exact json_facts_skip (jsonStep_nondict (fun dd h => PyVal.noConfusion h))
        (by simp [jsonCompanyWrites]) (by simp [jsonPostWrites])
        (by simp [jsonProcW]) (by simp [jsonMetricsW]) (ih db)
    | str s =>
      exact json_facts_skip (jsonStep_nondict (fun dd h => PyVal.noConfusion h))
        (by simp [jsonCompanyWrites]) (by simp [jsonPostWrites])
        (by simp [jsonProcW]) (by simp [jsonMetricsW]) (ih db)
    | list l =>
      exact json_facts_skip (jsonStep_nondict (fun dd h => PyVal.noConfusion h))
        (by simp [jsonCompanyWrites]) (by simp [jsonPostWrites])
        (by simp [jsonProcW]) (by simp [jsonMetricsW]) (ih db)

lemma json_loop_replace (now : String) :
    ∀ (items : List PyVal) (db : DB),
      (∀ x ∈ jsonCompanyWrites now items, ∃ p ∈ db.companies, companyKey p.2 = companyKey x) →
      (∀ x ∈ jsonPostWrites items, ∃ p ∈ db.posts, postKey p.2 = postKey x) →
      (jsonLoop supabaseModel now items db).2.companies =
        db.companies.map (finalRepl companyKey (jsonCompanyWrites now items)) ∧
      (jsonLoop supabaseModel now items db).2.posts =
        db.posts.map (finalRepl postKey (jsonPostWrites items)) ∧
      (jsonLoop supabaseModel now items db).2.nextId = db.nextId := by
  intro items
  induction items with
  | nil =>
    intro db _ _
    refine ⟨?_, ?_, rfl⟩
    · rw [show db.companies.map (finalRepl companyKey (jsonCompanyWrites now [])) =
          db.companies.map id from
        List.map_congr_left (fun p _ => finalRepl_nil companyKey p), List.map_id]
      rfl
    · rw [show db.posts.map (finalRepl postKey (jsonPostWrites [])) = db.posts.map id from
        List.map_congr_left (fun p _ => finalRepl_nil postKey p), List.map_id]
      rfl
  | cons item rest ih =>
    intro db hc hp
    cases item with
    | dict dd =>
      by_cases h1 : containsKey dd.toRecord "companyName"
      · have hcw : jsonCompanyWrites now (.dict dd :: rest) =
            jsonCompanyRow dd.toRecord now :: jsonCompanyWrites now rest := by
          simp [jsonCompanyWrites, h1]
        have hpw : jsonPostWrites (.dict dd :: rest) = jsonPostWrites rest := by
          simp [jsonPostWrites, h1]
        rw [hcw] at hc
        obtain ⟨hT1, hT2⟩ := @tblUpsert_replace _ companyKey db.companies
          (jsonCompanyRow dd.toRecord now) db.nextId (hc _ (by simp))
        have hstep : jsonItemStep supabaseModel now (.dict dd) db =
            ({ db with
                companies := db.companies.map (replOne companyKey (jsonCompanyRow dd.toRecord now)),
                nextId := db.nextId }, 1) := by
          rw [jsonStep_company h1, hT1, hT2]
        have hdb1 : (jsonItemStep supabaseModel now (.dict dd) db).1 =
            { db with
              companies := db.companies.map (replOne companyKey (jsonCompanyRow dd.toRecord now)),
              nextId := db.nextId } := by
          rw [hstep]
        obtain ⟨r1, r2, r3⟩ := ih
          { db with
            companies := db.companies.map (replOne companyKey (jsonCompanyRow dd.toRecord now)),
            nextId := db.nextId }
          (fun x hx => mem_key_map_replOne companyKey (hc x (by simp [hx])) _)
          (fun x hx => hp x (by rw [hpw]; exact hx))
        have hL : (jsonLoop supabaseModel now (.dict dd :: rest) db).2 =
            (jsonLoop supabaseModel now rest
              { db with
                companies := db.companies.map (replOne companyKey (jsonCompanyRow dd.toRecord now)),
                nextId := db.nextId }).2 := by
          rw [jsonLoop_cons, hdb1]
        refine ⟨?_, ?_, ?_⟩
        · rw [hL, r1, hcw, List.map_map]
          exact List.map_congr_left (fun p _ => (finalRepl_cons companyKey _ _ p).symm)
        · rw [hL, r2, hpw]
        · rw [hL, r3]
      · have h1f : containsKey dd.toRecord "companyName" = false := by simpa using h1
        by_cases h2 : containsKey dd.toRecord "postId"
        · have hcw : jsonCompanyWrites now (.dict dd :: rest) = jsonCompanyWrites now rest := by
            simp [jsonCompanyWrites, h1f]
          have hpw : jsonPostWrites (.dict dd :: rest) =
              jsonPostRow dd.toRecord :: jsonPostWrites rest := by
            simp [jsonPostWrites, h1f, h2]
          rw [hpw] at hp
          obtain ⟨hT1, hT2⟩ := @tblUpsert_replace _ postKey db.posts
            (jsonPostRow dd.toRecord) db.nextId (hp _ (by simp))
          obtain ⟨m1, m2, m3, m4, m5⟩ := @jsonStep_post now dd db h1f h2
          set db1 := (jsonItemStep supabaseModel now (.dict dd) db).1 with hdb1
          obtain ⟨r1, r2, r3⟩ := ih db1
            (fun x hx => by
              rw [m3]
              exact hc x (by rw [hcw]; exact hx))
            (fun x hx => by
              rw [m1, hT1]
              exact mem_key_map_replOne postKey (hp x (by simp [hx])) _)
          have hL : (jsonLoop supabaseModel now (.dict dd :: rest) db).2 =
              (jsonLoop supabaseModel now rest db1).2 := rfl
          refine ⟨?_, ?_, ?_⟩
          · rw [hL, r1, hcw, m3]
          · rw [hL, r2, m1, hT1, List.map_map, hpw]
            exact List.map_congr_left (fun p _ => (finalRepl_cons postKey _ _ p).symm)
          · rw [hL, r3, m2, hT2]
        · have h2f : containsKey dd.toRecord "postId" = false := by simpa using h2
          have hstep := @jsonStep_unknown supabaseModel now dd db h1f h2f
          have hcw : jsonCompanyWrites now (.dict dd :: rest) = jsonCompanyWrites now rest := by
            simp [jsonCompanyWrites, h1f]
          have hpw : jsonPostWrites (.dict dd :: rest) = jsonPostWrites rest := by
            simp [jsonPostWrites, h1f, h2f]
          have hL : (jsonLoop supabaseModel now (.dict dd :: rest) db).2 =
              (jsonLoop supabaseModel now rest db).2 := by
            rw [jsonLoop_cons, hstep]
          obtain ⟨r1, r2, r3⟩ := ih db (fun x hx => hc x (by rw [hcw]; exact hx))
            (fun x hx => hp x (by rw [hpw]; exact hx))
          exact ⟨by rw [hL, r1, hcw], by rw [hL, r2, hpw], by rw [hL, r3]⟩
    | none =>
      have hstep := @jsonStep_nondict supabaseModel now PyVal.none db
        (fun dd h => PyVal.noConfusion h)
      have hL : (jsonLoop supabaseModel now (PyVal.none :: rest) db).2 =
          (jsonLoop supabaseModel now rest db).2 := by
        rw [jsonLoop_cons, hstep]
      obtain ⟨r1, r2, r3⟩ := ih db (fun x hx => hc x (by simpa [jsonCompanyWrites] using hx))
        (fun x hx => hp x (by simpa [jsonPostWrites] using hx))
      exact ⟨by rw [hL, r1]; rfl, by rw [hL, r2]; rfl, by rw [hL, r3]⟩
    | bool b =>
      have hstep := @jsonStep_nondict supabaseModel now (PyVal.bool b) db
        (fun dd h => PyVal.noConfusion h)
      have hL : (jsonLoop supabaseModel now (PyVal.bool b :: rest) db).2 =
          (jsonLoop supabaseModel now rest db).2 := by
        rw [jsonLoop_cons, hstep]
      obtain ⟨r1, r2, r3⟩ := ih db (fun x hx => hc x (by simpa [jsonCompanyWrites] using hx))
        (fun x hx => hp x (by simpa [jsonPostWrites] using hx))
      exact ⟨by rw [hL, r1]; rfl, by rw [hL, r2]; rfl, by rw [hL, r3]⟩
    | int n =>
      have hstep := @jsonStep_nondict supabaseModel now (PyVal.int n) db
        (fun dd h => PyVal.noConfusion h)
      have hL : (jsonLoop supabaseModel now (PyVal.int n :: rest) db).2 =
          (jsonLoop supabaseModel now rest db).2 := by
        rw [jsonLoop_cons, hstep]
      obtain ⟨r1, r2, r3⟩ := ih db (fun x hx => hc x (by simpa [jsonCompanyWrites] using hx))
        (fun x hx => hp x (by simpa [jsonPostWrites] using hx))
      exact ⟨by rw [hL, r1]; rfl, by rw [hL, r2]; rfl, by rw [hL, r3]⟩
    | str s =>
      have hstep := @jsonStep_nondict supabaseModel now (PyVal.str s) db
        (fun dd h => PyVal.noConfusion h)
      have hL : (jsonLoop supabaseModel now (PyVal.str s :: rest) db).2 =
          (jsonLoop supabaseModel now rest db).2 := by
        rw [jsonLoop_cons, hstep]
      obtain ⟨r1, r2, r3⟩ := ih db (fun x hx => hc x (by simpa [jsonCompanyWrites] using hx))
        (fun x hx => hp x (by simpa [jsonPostWrites] using hx))
      exact ⟨by rw [hL, r1]; rfl, by rw [hL, r2]; rfl, by rw [hL, r3]⟩
    | list l =>
      have hstep := @jsonStep_nondict supabaseModel now (PyVal.list l) db
        (fun dd h => PyVal.noConfusion h)
      have hL : (jsonLoop supabaseModel now (PyVal.list l :: rest) db).2 =
          (jsonLoop supabaseModel now rest db).2 := by
        rw [jsonLoop_cons, hstep]
      obtain ⟨r1, r2, r3⟩ := ih db (fun x hx => hc x (by simpa [jsonCompanyWrites] using hx))
        (fun x hx => hp x (by simpa [jsonPostWrites] using hx))
      exact ⟨by rw [hL, r1]; rfl, by rw [hL, r2]; rfl, by rw [hL, r3]⟩

lemma companyKey_setFetched (t : String) (c : CompanyRow) :
    companyKey (setFetched t c) = companyKey c := rfl

lemma jsonCompanyWrites_now (now1 now2 : String) (items : List PyVal) :
    jsonCompanyWrites now2 items = (jsonCompanyWrites now1 items).map (setFetched now2) := by
  induction items with
  | nil => rfl
  | cons item rest ih =>
    cases item with
    | dict dd =>
      by_cases h1 : containsKey dd.toRecord "companyName"
      · simp only [jsonCompanyWrites, List.filterMap_cons, h1, if_true, ite_true,
          List.map_cons] at ih ⊢
        exact congrArg _ ih
      · have h1f : containsKey dd.toRecord "companyName" = false := by simpa using h1
        simpa [jsonCompanyWrites, h1f] using ih
    | none => simpa [jsonCompanyWrites] using ih
    | bool b => simpa [jsonCompanyWrites] using ih
    | int n => simpa [jsonCompanyWrites] using ih
    | str s => simpa [jsonCompanyWrites] using ih
    | list l => simpa [jsonCompanyWrites] using ih

lemma lastWrite_map_setFetched (t : String) (k : PyVal) (ws : List CompanyRow) :
    lastWrite companyKey k (ws.map (setFetched t)) =
      (lastWrite companyKey k ws).map (setFetched t) := by
  induction ws with
  | nil => rfl
  | cons x ws ih =>
    rw [List.map_cons, lastWrite, lastWrite, ih]
    cases hlw : lastWrite companyKey k ws with
    | some y => rfl
    | none =>
      by_cases hk : companyKey x = k
      · rw [if_pos hk, if_pos (show companyKey (setFetched t x) = k from hk)]
        rfl
      · rw [if_neg hk, if_neg (show ¬ companyKey (setFetched t x) = k from hk)]
        rfl

lemma map_finalRepl_id_of_last {α : Type} (key : α → PyVal) (ws : List α)
    (rows : List (Nat × α))
    (h : ∀ p ∈ rows, ∀ y, lastWrite key (key p.2) ws = some y → p.2 = y) :
    rows.map (finalRepl key ws) = rows := by
  rw [show rows.map (finalRepl key ws) = rows.map id from
    List.map_congr_left (fun p hp => ?_), List.map_id]
  unfold finalRepl
  cases hlw : lastWrite key (key p.2) ws with
  | some y =>
    simp only [hlw]
    rw [← h p hp y hlw]
    simp
  | none => simp only [hlw, id]

lemma csv_replay (md5 : String → String) (now1 now2 : String) (posts : List Record)
    (db : DB) :
    (process_csv_posts supabaseModel md5 now2 posts
        (process_csv_posts supabaseModel md5 now1 posts db).2).1 =
      (process_csv_posts supabaseModel md5 now1 posts db).1 ∧
    (process_csv_posts supabaseModel md5 now2 posts
        (process_csv_posts supabaseModel md5 now1 posts db).2).2.posts =
      (process_csv_posts supabaseModel md5 now1 posts db).2.posts ∧
    (process_csv_posts supabaseModel md5 now2 posts
        (process_csv_posts supabaseModel md5 now1 posts db).2).2.nextId =
      (process_csv_posts supabaseModel md5 now1 posts db).2.nextId ∧
    (process_csv_posts supabaseModel md5 now2 posts
        (process_csv_posts supabaseModel md5 now1 posts db).2).2.companies =
      db.companies ∧
    (process_csv_posts supabaseModel md5 now2 posts
        (process_csv_posts supabaseModel md5 now1 posts db).2).2.metrics.length =
      db.metrics.length + (process_csv_posts supabaseModel md5 now1 posts db).1 +
        (process_csv_posts supabaseModel md5 now1 posts db).1 := by
  obtain ⟨c1, co1, m1, a1⟩ := csv_loop_model md5 now1 posts db
  obtain ⟨c2, co2, m2, a2⟩ :=
    csv_loop_model md5 now2 posts (process_csv_posts supabaseModel md5 now1 posts db).2
  have hpair : ((process_csv_posts supabaseModel md5 now2 posts
        (process_csv_posts supabaseModel md5 now1 posts db).2).2.posts,
      (process_csv_posts supabaseModel md5 now2 posts
        (process_csv_posts supabaseModel md5 now1 posts db).2).2.nextId) =
      ((process_csv_posts supabaseModel md5 now1 posts db).2.posts,
        (process_csv_posts supabaseModel md5 now1 posts db).2.nextId) := by
    rw [a2]
    have h1 : (process_csv_posts supabaseModel md5 now1 posts db).2.posts =
        (applyUpserts postKey (csvWrites md5 posts) db.posts db.nextId).1 :=
      congrArg Prod.fst a1
    have h2 : (process_csv_posts supabaseModel md5 now1 posts db).2.nextId =
        (applyUpserts postKey (csvWrites md5 posts) db.posts db.nextId).2 :=
      congrArg Prod.snd a1
    rw [h1, h2, applyUpserts_absorb postKey (csvWrites md5 posts) db.posts db.nextId]
  refine ⟨by rw [c2, c1], congrArg Prod.fst hpair, congrArg Prod.snd hpair,
    by rw [co2, co1], ?_⟩
  rw [m2, m1, c2, c1]

lemma json_replay (now1 now2 : String) (items : List PyVal) (db : DB) :
    (jsonLoop supabaseModel now2 items (jsonLoop supabaseModel now1 items db).2).1 =
      (jsonLoop supabaseModel now1 items db).1 ∧
    (jsonLoop supabaseModel now2 items (jsonLoop supabaseModel now1 items db).2).2.posts =
      (jsonLoop supabaseModel now1 items db).2.posts ∧
    (jsonLoop supabaseModel now2 items (jsonLoop supabaseModel now1 items db).2).2.nextId =
      (jsonLoop supabaseModel now1 items db).2.nextId ∧
    (jsonLoop supabaseModel now2 items
          (jsonLoop supabaseModel now1 items db).2).2.companies.map
        (fun p => (p.1, setFetched "" p.2)) =
      (jsonLoop supabaseModel now1 items db).2.companies.map
        (fun p => (p.1, setFetched "" p.2)) ∧
    (jsonLoop supabaseModel now2 items
          (jsonLoop supabaseModel now1 items db).2).2.metrics.length =
      db.metrics.length + (items.map jsonMetricsW).sum + (items.map jsonMetricsW).sum ∧
    (jsonLoop supabaseModel now1 items (jsonLoop supabaseModel now1 items db).2).2.companies =
      (jsonLoop supabaseModel now1 items db).2.companies := by
  have F1 := json_loop_model now1 items db
  have F2 := json_loop_model now2 items (jsonLoop supabaseModel now1 items db).2
  have hpresC : ∀ x ∈ jsonCompanyWrites now2 items,
      ∃ p ∈ (jsonLoop supabaseModel now1 items db).2.companies,
        companyKey p.2 = companyKey x := by
    intro x hx
    rw [jsonCompanyWrites_now now1 now2 items] at hx
    obtain ⟨x1, hx1, rfl⟩ := List.mem_map.mp hx
    exact F1.cpresent x1 hx1
  obtain ⟨Rc, Rp, Rn⟩ :=
    json_loop_replace now2 items (jsonLoop supabaseModel now1 items db).2 hpresC F1.ppresent
  obtain ⟨Rc1, _, _⟩ :=
    json_loop_replace now1 items (jsonLoop supabaseModel now1 items db).2
      F1.cpresent F1.ppresent
  refine ⟨F2.count.trans F1.count.symm, ?_, Rn, ?_, ?_, ?_⟩
  · rw [Rp]
    exact map_finalRepl_id_of_last postKey (jsonPostWrites items) _ F1.plast
  · rw [Rc, jsonCompanyWrites_now now1 now2 items, List.map_map]
    refine List.map_congr_left (fun p hp => ?_)
    show ((finalRepl companyKey ((jsonCompanyWrites now1 items).map (setFetched now2)) p).1,
        setFetched ""
          (finalRepl companyKey ((jsonCompanyWrites now1 items).map (setFetched now2)) p).2) =
      (p.1, setFetched "" p.2)
    unfold finalRepl
    rw [lastWrite_map_setFetched]
    cases hlw : lastWrite companyKey (companyKey p.2) (jsonCompanyWrites now1 items) with
    | some y1 =>
      have hq := F1.clast p hp y1 hlw
      show (p.1, setFetched "" (setFetched now2 y1)) = (p.1, setFetched "" p.2)
      rw [hq]
      rfl
    | none => rfl
  · rw [F2.metrics, F1.metrics]
  · rw [Rc1]
    exact map_finalRepl_id_of_last companyKey (jsonCompanyWrites now1 items) _ F1.clast

/-- C5: Engagement metrics are append-only while company and post rows are
upserted by natural key, so re-ingesting the identical batch a second time is
idempotent on the entity tables but appends a fresh metrics snapshot per post.
CSV path: the second run returns the same processed count, leaves the posts
table, the id counter and the (never-touched) companies table exactly as the
first run did, and grows the metrics table by the same amount again.  JSON
path: the second run returns the same processed count, leaves the posts table
and the id counter unchanged, reproduces the companies table up to the
ingestion timestamp written into `fetched_at` (exactly, when the timestamp is
the same), and again appends one metrics row per processed post item — two
snapshots per post after two runs.  Concretely, a one-post CSV batch ingested
twice into an empty store leaves one posts row and two metrics rows. -/
theorem claim_C5 :
    (∀ (md5 : String → String) (now1 now2 : String) (posts : List Record) (db : DB),
      (process_csv_posts supabaseModel md5 now2 posts
          (process_csv_posts supabaseModel md5 now1 posts db).2).1 =
        (process_csv_posts supabaseModel md5 now1 posts db).1 ∧
      (process_csv_posts supabaseModel md5 now2 posts
          (process_csv_posts supabaseModel md5 now1 posts db).2).2.posts =
        (process_csv_posts supabaseModel md5 now1 posts db).2.posts ∧
      (process_csv_posts supabaseModel md5 now2 posts
          (process_csv_posts supabaseModel md5 now1 posts db).2).2.nextId =
        (process_csv_posts supabaseModel md5 now1 posts db).2.nextId ∧
      (process_csv_posts supabaseModel md5 now2 posts
          (process_csv_posts supabaseModel md5 now1 posts db).2).2.companies =
        db.companies ∧
      (process_csv_posts supabaseModel md5 now2 posts
          (process_csv_posts supabaseModel md5 now1 posts db).2).2.metrics.length =
        db.metrics.length + (process_csv_posts supabaseModel md5 now1 posts db).1 +
          (process_csv_posts supabaseModel md5 now1 posts db).1) ∧
    (∀ (now1 now2 : String) (items : List PyVal) (db : DB),
      (jsonLoop supabaseModel now2 items (jsonLoop supabaseModel now1 items db).2).1 =
        (jsonLoop supabaseModel now1 items db).1 ∧
      (jsonLoop supabaseModel now2 items (jsonLoop supabaseModel now1 items db).2).2.posts =
        (jsonLoop supabaseModel now1 items db).2.posts ∧
      (jsonLoop supabaseModel now2 items (jsonLoop supabaseModel now1 items db).2).2.nextId =
        (jsonLoop supabaseModel now1 items db).2.nextId ∧
      (jsonLoop supabaseModel now2 items
            (jsonLoop supabaseModel now1 items db).2).2.companies.map
          (fun p => (p.1, setFetched "" p.2)) =
        (jsonLoop supabaseModel now1 items db).2.companies.map
          (fun p => (p.1, setFetched "" p.2)) ∧
      (jsonLoop supabaseModel now2 items
            (jsonLoop supabaseModel now1 items db).2).2.metrics.length =
        db.metrics.length + (items.map jsonMetricsW).sum + (items.map jsonMetricsW).sum ∧
      (jsonLoop supabaseModel now1 items
            (jsonLoop supabaseModel now1 items db).2).2.companies =
        (jsonLoop supabaseModel now1 items db).2.companies) ∧
    (process_csv_posts supabaseModel md5id "t2"
        [[("postUrl", .str "u"), ("likes", .str "3")]]
        (process_csv_posts supabaseModel md5id "t1"
          [[("postUrl", .str "u"), ("likes", .str "3")]] emptyDB).2).2.posts.length = 1 ∧
    (process_csv_posts supabaseModel md5id "t2"
        [[("postUrl", .str "u"), ("likes", .str "3")]]
        (process_csv_posts supabaseModel md5id "t1"
          [[("postUrl", .str "u"), ("likes", .str "3")]] emptyDB).2).2.metrics.length = 2 :=
  ⟨fun md5 now1 now2 posts db => csv_replay md5 now1 now2 posts db,
   fun now1 now2 items db => json_replay now1 now2 items db,
   by decide, by decide⟩

end Pipeline
